import Mathlib

/-!
# Verification of the CTF Sentinel Entity Correlation & Scoring Engine

Shallow embedding, in Lean 4, of the `CorrelationEngine` of
`src/correlation_report.py` (class `CorrelationEngine`: `__init__`,
`add_raw_data`, `add_parsed_entities`, `_normalize_key`,
`_find_entity_links`, `_calculate_entity_scores`, `correlate`,
`get_entity_details`).

Modelling conventions:
* Python dicts (insertion ordered since 3.7) become association lists in
  which an update to an existing key rewrites the value in place and a new
  key is appended at the end.
* Python sets become duplicate-free lists (`saddSet` adds an element only
  when absent); the claims checked here depend only on membership and on
  cardinality of sets, never on Python's hash iteration order.
* Python floats become rationals (`ℚ`); all score arithmetic in the source
  (`max`, `min`, `+`, `*` with the constants 0.5, 0.1, 0.3, 0.05, 0.2, 0.8,
  1.0) is exact on these values, so ℚ is a faithful model.
* `str.lower` / `str.strip` are modelled on ASCII (`lowerChar`, `pyStrip`);
  the heterogeneous entity dicts of the source become an `Entry` structure
  whose `Option` fields record which dict keys are present, so that a
  Python `KeyError` is representable: each engine operation returns its
  resulting state together with a `Bool` error flag (`true` = an exception
  escaped; mutations made before the raise persist, as they do on the
  Python object).
-/

namespace CTFSentinel

/-! ## Normalization (`CorrelationEngine._normalize_key`) -/

/-- ASCII model of Python `str.lower` on one character. -/
def lowerChar (c : Char) : Char :=
  if 65 ≤ c.toNat ∧ c.toNat ≤ 90 then Char.ofNat (c.toNat + 32) else c

/-- ASCII model of the whitespace characters removed by Python `str.strip()`. -/
def isSpace (c : Char) : Bool :=
  c = ' ' || c = '\t' || c = '\n' || c = '\r' || c = '\x0b' || c = '\x0c'

/-- Remove leading and trailing whitespace (Python `str.strip()`). -/
def pyStrip (l : List Char) : List Char :=
  ((l.dropWhile isSpace).reverse.dropWhile isSpace).reverse

/-- `CorrelationEngine._normalize_key`: `value.lower().strip()`. -/
def normalizeKey (s : String) : String :=
  ⟨pyStrip (s.data.map lowerChar)⟩

/-! ### Facts about normalization -/

theorem char_toNat_ofNat {n : Nat} (h : n < 55296) : (Char.ofNat n).toNat = n := by
  have hv : Char.isValidCharNat n := Or.inl h
  simp [Char.ofNat, hv, Char.ofNatAux, Char.toNat, UInt32.ofNat', UInt32.toNat]

theorem isSpace_eq_false_of_gt {c : Char} (h : 32 < c.toNat) : isSpace c = false := by
  simp only [isSpace, Bool.or_eq_false_iff, decide_eq_false_iff_not]
  refine ⟨⟨⟨⟨⟨?_, ?_⟩, ?_⟩, ?_⟩, ?_⟩, ?_⟩ <;> · intro hh; subst hh; revert h; decide

theorem lowerChar_idem (c : Char) : lowerChar (lowerChar c) = lowerChar c := by
  unfold lowerChar
  by_cases h : 65 ≤ c.toNat ∧ c.toNat ≤ 90
  · rw [if_pos h, if_neg]
    rw [char_toNat_ofNat (by omega)]
    omega
  · rw [if_neg h, if_neg h]

theorem lowerChar_space {c : Char} (h : isSpace c = true) : lowerChar c = c := by
  simp only [isSpace, Bool.or_eq_true, decide_eq_true_eq] at h
  rcases h with ((((h | h) | h) | h) | h) | h <;> (subst h; decide)

theorem isSpace_lowerChar (c : Char) : isSpace (lowerChar c) = isSpace c := by
  by_cases hc : 65 ≤ c.toNat ∧ c.toNat ≤ 90
  · have h1 : isSpace c = false := isSpace_eq_false_of_gt (by omega)
    have h2 : isSpace (lowerChar c) = false := by
      unfold lowerChar
      rw [if_pos hc]
      exact isSpace_eq_false_of_gt (by rw [char_toNat_ofNat (by omega)]; omega)
    rw [h1, h2]
  · unfold lowerChar
    rw [if_neg hc]

theorem dropWhile_head?_false {α : Type} {p : α → Bool} {l : List α} {a : α}
    (h : (l.dropWhile p).head? = some a) : p a = false := by
  have hd := List.head?_dropWhile_not p l
  rw [h] at hd
  exact hd

theorem dropWhile_eq_self_of_head? {α : Type} {p : α → Bool} {l : List α}
    (h : ∀ a, l.head? = some a → p a = false) : l.dropWhile p = l := by
  cases l with
  | nil => rfl
  | cons a t => simp [List.dropWhile_cons, h a rfl]

theorem dropWhile_idem {α : Type} (p : α → Bool) (l : List α) :
    (l.dropWhile p).dropWhile p = l.dropWhile p :=
  dropWhile_eq_self_of_head? fun _ ha => dropWhile_head?_false ha

theorem pyStrip_noLead (l : List Char) :
    (pyStrip l).dropWhile isSpace = pyStrip l := by
  apply dropWhile_eq_self_of_head?
  intro a ha
  unfold pyStrip at ha
  rw [List.head?_reverse] at ha
  obtain ⟨t, ht⟩ := List.dropWhile_suffix (l := (l.dropWhile isSpace).reverse) isSpace
  have h1 : (l.dropWhile isSpace).reverse.getLast? = some a := by
    rw [← ht, List.getLast?_append, ha]
    rfl
  rw [List.getLast?_reverse] at h1
  exact dropWhile_head?_false h1

theorem pyStrip_idem (l : List Char) : pyStrip (pyStrip l) = pyStrip l := by
  show (((pyStrip l).dropWhile isSpace).reverse.dropWhile isSpace).reverse = pyStrip l
  rw [pyStrip_noLead]
  show ((pyStrip l).reverse.dropWhile isSpace).reverse = pyStrip l
  unfold pyStrip
  rw [List.reverse_reverse, dropWhile_idem]

theorem map_lowerChar_dropWhile (l : List Char) :
    (l.map lowerChar).dropWhile isSpace = (l.dropWhile isSpace).map lowerChar := by
  induction l with
  | nil => rfl
  | cons a t ih =>
    by_cases h : isSpace a = true <;>
      simp [List.dropWhile_cons, isSpace_lowerChar a, h, ih]

theorem map_lowerChar_pyStrip (l : List Char) :
    (pyStrip l).map lowerChar = pyStrip (l.map lowerChar) := by
  unfold pyStrip
  rw [map_lowerChar_dropWhile, ← List.map_reverse, map_lowerChar_dropWhile,
    ← List.map_reverse]

theorem map_lowerChar_eq_self_of_space {l : List Char}
    (h : ∀ c ∈ l, isSpace c = true) : l.map lowerChar = l := by
  have : l.map lowerChar = l.map id := List.map_congr_left fun a ha => lowerChar_space (h a ha)
  rw [this, List.map_id]

theorem pyStrip_space_append {pre l : List Char}
    (h : ∀ c ∈ pre, isSpace c = true) : pyStrip (pre ++ l) = pyStrip l := by
  unfold pyStrip
  rw [List.dropWhile_append_of_pos h]

theorem pyStrip_append_space {l post : List Char}
    (h : ∀ c ∈ post, isSpace c = true) : pyStrip (l ++ post) = pyStrip l := by
  unfold pyStrip
  rw [List.dropWhile_append]
  by_cases he : (l.dropWhile isSpace).isEmpty = true
  · rw [if_pos he]
    rw [List.isEmpty_iff] at he
    have hp : post.dropWhile isSpace = [] := List.dropWhile_eq_nil_iff.mpr h
    rw [he, hp]
  · rw [if_neg he, List.reverse_append,
      List.dropWhile_append_of_pos (fun c hc => h c (List.mem_reverse.mp hc))]

theorem pyStrip_eq_nil_of_space {l : List Char}
    (h : ∀ c ∈ l, isSpace c = true) : pyStrip l = [] := by
  unfold pyStrip
  rw [List.dropWhile_eq_nil_iff.mpr h]
  rfl

/-- Key idempotence fact at the list level. -/
theorem normalize_list_idem (d : List Char) :
    pyStrip ((pyStrip (d.map lowerChar)).map lowerChar) = pyStrip (d.map lowerChar) := by
  rw [map_lowerChar_pyStrip, List.map_map]
  have hmm : d.map (lowerChar ∘ lowerChar) = d.map lowerChar :=
    List.map_congr_left fun a _ => lowerChar_idem a
  rw [hmm, pyStrip_idem]

/-! ## Data model

The engine's `correlation_map` holds heterogeneous Python dicts.  `Entry`
carries one `Option` layer per dict key that is not always present, so
that a Python `KeyError` on a missing key is representable:

* the `defaultdict` factory of `CorrelationEngine.__init__` produces
  `{'type': None, 'sources': set(), 'linked_entities': set(),
    'metadata': {}, 'importance': 0.0}` (the unused `'metadata'` payload is
  not modelled);
* `add_raw_data` installs, at the reserved key `"raw_data"`, the corpus
  entry `{'type': 'metadata', 'sources': set(), 'data': {}}`, which has
  no `'linked_entities'`, `'importance'` or `'occurrences'` key.
-/

/-- One parsed entity observation handed to `add_parsed_entities`.
`none` in `type?` / `value?` / `importance_score?` means the dict key is
absent (`entity['value']` then raises `KeyError`; `entity.get('importance_score', 0.5)`
then yields 0.5).  A present `'type'` key may itself hold Python `None`,
hence the nested option. -/
structure Obs where
  type? : Option (Option String)
  value? : Option String
  importance_score? : Option ℚ
deriving DecidableEq, Repr

/-- One value of `correlation_map`.  A field holding `none` models the
corresponding dict key being absent. -/
structure Entry where
  type : Option String := none
  sources : List String := []
  linked_entities : Option (List String) := some []
  importance : Option ℚ := some 0
  occurrences : Option (List Obs) := none
  data : Option (List (String × String)) := none
  final_score : Option ℚ := none
deriving DecidableEq, Repr

/-- The `defaultdict` factory of `CorrelationEngine.__init__`. -/
def defaultEntry : Entry := {}

/-- The corpus entry installed by `add_raw_data` when `'raw_data'` is absent. -/
def corpusInit : Entry :=
  { type := some "metadata", sources := [], linked_entities := none,
    importance := none, occurrences := none, data := some [] }

/-- One record of `self.relationships`. -/
structure Rel where
  entity1 : String
  entity2 : String
  relationship : String
  sources : List String
  strength : Nat
deriving DecidableEq, Repr

/-- The mutable state of a `CorrelationEngine` instance. -/
structure EngineState where
  correlation_map : List (String × Entry)
  relationships : List Rel
deriving DecidableEq, Repr

/-- `CorrelationEngine.__init__`. -/
def initEngine : EngineState := ⟨[], []⟩

/-- The value returned by `CorrelationEngine.correlate`. -/
structure CorrelationResult where
  total_entities : Nat
  linked_count : Nat
  high_value_count : Nat
  ctf_flags : List String
  api_keys : List String
  credentials : List String
  relationships : List Rel
  high_value_entities : List String
deriving DecidableEq, Repr

/-! ## Association-list primitives (insertion-ordered Python dict) -/

/-- Dict lookup (first match; keys are unique in reachable states). -/
def alookup : List (String × Entry) → String → Option Entry
  | [], _ => none
  | (k', e) :: t, k => if k' = k then some e else alookup t k

/-- Dict value overwrite at an existing key (keeps insertion position). -/
def aupdate : List (String × Entry) → String → Entry → List (String × Entry)
  | [], _, _ => []
  | (k', e') :: t, k, e => if k' = k then (k', e) :: t else (k', e') :: aupdate t k e

/-- `defaultdict.__getitem__`: create the default entry on first access
(appended at the end, as Python dicts preserve insertion order). -/
def getOrCreate (m : List (String × Entry)) (k : String) : List (String × Entry) :=
  if (alookup m k).isSome then m else m ++ [(k, defaultEntry)]

/-- Python `set.add` on a set modelled as a duplicate-free list. -/
def saddSet (l : List String) (s : String) : List String :=
  if s ∈ l then l else l ++ [s]

/-- Python dict `d[k] = v` on a `str → str` dict (the corpus `'data'` dict). -/
def dput : List (String × String) → String → String → List (String × String)
  | [], k, v => [(k, v)]
  | (k', v') :: t, k, v => if k' = k then (k, v) :: t else (k', v') :: dput t k v

/-! ## Engine operations -/

/-- One iteration of the `add_raw_data` loop body for a `(source, content)`
item.  The `Bool` is the error flag: `true` models the `KeyError` raised by
`self.correlation_map['raw_data']['data']` when the entry at `'raw_data'`
has no `'data'` key (it is an entity record, not the corpus entry). -/
def addRawOne (st : EngineState) (source content : String) : EngineState × Bool :=
  let m := if (alookup st.correlation_map "raw_data").isSome then st.correlation_map
           else st.correlation_map ++ [("raw_data", corpusInit)]
  match alookup m "raw_data" with
  | some e =>
      match e.data with
      | some d =>
          ({ st with correlation_map :=
              aupdate m "raw_data" { e with data := some (dput d source content) } }, false)
      | none => ({ st with correlation_map := m }, true)
  | none => (st, true)

/-- `CorrelationEngine.add_raw_data`: iterate `addRawOne` over the items of
`raw_data`; an exception aborts the remaining iterations but the mutations
already made persist. -/
def add_raw_data (st : EngineState) : List (String × String) → EngineState × Bool
  | [] => (st, false)
  | (source, content) :: t =>
      match addRawOne st source content with
      | (st', false) => add_raw_data st' t
      | (st', true) => (st', true)

/-- Lines 78–81 of the source, as a value: the entry at `key` after the
`defaultdict` access, the `type` write-if-unset and `sources.add(source)`,
before the `['importance']` access. -/
def preEntry (m : List (String × Entry)) (key : String) (entity_type : Option String)
    (source : String) : Entry :=
  let e := (alookup (getOrCreate m key) key).getD defaultEntry
  let e := if e.type = none then { e with type := entity_type } else e
  { e with sources := saddSet e.sources source }

/-- One iteration of the inner `add_parsed_entities` loop for one entity
dict.  Follows the source line by line (`preEntry` is lines 78–81); the
error flag models the `KeyError` on a missing `'value'`/`'type'` key, and
the `KeyError` on `['importance']` when the entry at the key is the corpus
entry (in that case the `'type'`/`'sources'` mutations already made
persist, exactly as on the Python object). -/
def ingestObs (st : EngineState) (source : String) (o : Obs) : EngineState × Bool :=
  match o.value? with
  | none => (st, true)
  | some v =>
    let entity_key := normalizeKey v
    match o.type? with
    | none => (st, true)
    | some entity_type =>
      let m := getOrCreate st.correlation_map entity_key
      let e := preEntry st.correlation_map entity_key entity_type source
      match e.importance with
      | none => ({ st with correlation_map := aupdate m entity_key e }, true)
      | some imp =>
        let e := { e with importance := some (max imp ((o.importance_score?).getD (1/2))) }
        let e := { e with occurrences := some ((e.occurrences.getD []) ++ [o]) }
        ({ st with correlation_map := aupdate m entity_key e }, false)

/-- The inner loop of `add_parsed_entities` over one source's entity list. -/
def ingestObsList (st : EngineState) (source : String) : List Obs → EngineState × Bool
  | [] => (st, false)
  | o :: t =>
      match ingestObs st source o with
      | (st', false) => ingestObsList st' source t
      | (st', true) => (st', true)

/-- `CorrelationEngine.add_parsed_entities`: outer loop over the
`source ↦ entities` groups. -/
def add_parsed_entities (st : EngineState) : List (String × List Obs) → EngineState × Bool
  | [] => (st, false)
  | (source, entities) :: t =>
      match ingestObsList st source entities with
      | (st', false) => add_parsed_entities st' t
      | (st', true) => (st', true)

/-! ## Correlation (`_find_entity_links`, `_calculate_entity_scores`, `correlate`) -/

/-- The `'sources'` value at a key (every entry carries the dict key). -/
def sourcesOf (m : List (String × Entry)) (k : String) : List String :=
  ((alookup m k).map Entry.sources).getD []

/-- The `'linked_entities'` value at a key (present on every entity entry;
the corpus entry, which lacks it, is never linked). -/
def linkedOf (m : List (String × Entry)) (k : String) : List String :=
  ((alookup m k).bind Entry.linked_entities).getD []

/-- The `'type'` value at a key. -/
def typeOf (m : List (String × Entry)) (k : String) : Option String :=
  (alookup m k).bind Entry.type

/-- The `'importance'` value at a key. -/
def importanceOf (m : List (String × Entry)) (k : String) : Option ℚ :=
  (alookup m k).bind Entry.importance

/-- `[k for k in self.correlation_map.keys() if k != 'raw_data']`. -/
def entitiesOf (m : List (String × Entry)) : List String :=
  (m.map Prod.fst).filter (fun k => decide (¬ k = "raw_data"))

/-- The ordered pairs visited by `for i, e1 in enumerate(entities): for e2 in entities[i+1:]`. -/
def pairsOf {α : Type} : List α → List (α × α)
  | [] => []
  | x :: xs => (xs.map fun y => (x, y)) ++ pairsOf xs

/-- `sources1 & sources2`, as the sub-list of `sources1` also in `sources2`
(faithful for membership and cardinality, the only uses in the source). -/
def commonSources (m : List (String × Entry)) (a b : String) : List String :=
  (sourcesOf m a).filter (fun s => decide (s ∈ sourcesOf m b))

/-- `self.correlation_map[a]['linked_entities'].add(b)` (the key is always
present on the entries this is called on — see `WF`). -/
def addLinked (m : List (String × Entry)) (a b : String) : List (String × Entry) :=
  match alookup m a with
  | some e => aupdate m a { e with linked_entities := some (saddSet (e.linked_entities.getD []) b) }
  | none => m

/-- The body of the pair loop in `_find_entity_links`. -/
def linkStep (st : EngineState) (p : String × String) : EngineState :=
  let common := commonSources st.correlation_map p.1 p.2
  if common = [] then st
  else
    { correlation_map := addLinked (addLinked st.correlation_map p.1 p.2) p.2 p.1,
      relationships := st.relationships ++
        [⟨p.1, p.2, "co_occurrence", common, common.length⟩] }

/-- `CorrelationEngine._find_entity_links`. -/
def find_entity_links (st : EngineState) : EngineState :=
  (pairsOf (entitiesOf st.correlation_map)).foldl linkStep st

/-- The per-entry body of `_calculate_entity_scores` (the `'importance'` and
`'linked_entities'` keys are present on every entry it runs on — see `WF`). -/
def scoreEntry (e : Entry) : Entry :=
  let base_score := e.importance.getD 0
  let source_boost := min ((e.sources.length : ℚ) * (1/10)) (3/10)
  let link_boost := min (((e.linked_entities.getD []).length : ℚ) * (1/20)) (1/5)
  { e with final_score := some (min (base_score + source_boost + link_boost) 1) }

/-- `CorrelationEngine._calculate_entity_scores`. -/
def calculate_entity_scores (m : List (String × Entry)) : List (String × Entry) :=
  m.map fun p => if p.1 = "raw_data" then p else (p.1, scoreEntry p.2)

/-- Lines 168–207 of `correlate`: compile the result dict from the scored
map and the relationship list (the spec's Result Compiler). -/
def compileResult (m2 : List (String × Entry)) (rels : List Rel) : CorrelationResult :=
  let entities := entitiesOf m2
  let high_value := entities.filter fun k =>
    decide ((((alookup m2 k).bind Entry.final_score).getD 0) ≥ 4/5)
  let ctf_flags := entities.filter fun k => decide (typeOf m2 k = some "CTF_FLAG")
  let api_keys := entities.filter fun k => decide (typeOf m2 k = some "API_KEY")
  let credentials := entities.filter fun k => decide (typeOf m2 k = some "CREDENTIAL")
  let linked_count := (entities.filter fun k => decide (¬ linkedOf m2 k = [])).length
  { total_entities := entities.length,
    linked_count := linked_count,
    high_value_count := high_value.length,
    ctf_flags := ctf_flags,
    api_keys := api_keys,
    credentials := credentials,
    relationships := rels,
    high_value_entities := high_value }

/-- `CorrelationEngine.correlate`; returns the mutated state and the result dict. -/
def correlate (st : EngineState) : EngineState × CorrelationResult :=
  let st1 := find_entity_links st
  let m2 := calculate_entity_scores st1.correlation_map
  (⟨m2, st1.relationships⟩, compileResult m2 st1.relationships)

/-- `CorrelationEngine.get_entity_details`: a pure read (`dict.get` neither
raises nor invokes the `defaultdict` factory, so the engine state is
untouched by construction). -/
def get_entity_details (st : EngineState) (entity_key : String) : Option Entry :=
  alookup st.correlation_map (normalizeKey entity_key)

/-! ## Reachable engine states -/

/-- States producible through the public API from a fresh engine.  Both the
error and the success outcome of each mutating call leave a reachable
state (an escaped exception leaves the partially mutated object behind). -/
inductive Reachable : EngineState → Prop
  | init : Reachable initEngine
  | raw {st : EngineState} (raw : List (String × String)) :
      Reachable st → Reachable (add_raw_data st raw).1
  | parsed {st : EngineState} (groups : List (String × List Obs)) :
      Reachable st → Reachable (add_parsed_entities st groups).1
  | corr {st : EngineState} :
      Reachable st → Reachable (correlate st).1

/-! ## Association-list lemmas -/

theorem alookup_isSome_iff_mem {m : List (String × Entry)} {k : String} :
    (alookup m k).isSome ↔ k ∈ m.map Prod.fst := by
  induction m with
  | nil => simp [alookup]
  | cons p t ih =>
    obtain ⟨k', e⟩ := p
    by_cases h : k' = k
    · subst h
      simp [alookup]
    · simp [alookup, h, ih, Ne.symm h]

theorem alookup_eq_none_of_not_mem {m : List (String × Entry)} {k : String}
    (h : k ∉ m.map Prod.fst) : alookup m k = none := by
  by_cases hs : (alookup m k).isSome
  · exact absurd (alookup_isSome_iff_mem.mp hs) h
  · exact Option.not_isSome_iff_eq_none.mp hs

theorem keys_aupdate (m : List (String × Entry)) (k : String) (e : Entry) :
    (aupdate m k e).map Prod.fst = m.map Prod.fst := by
  induction m with
  | nil => rfl
  | cons p t ih =>
    obtain ⟨k', e'⟩ := p
    by_cases h : k' = k <;> simp [aupdate, h, ih]

theorem alookup_aupdate_same {m : List (String × Entry)} {k : String} {e₀ : Entry}
    (h : alookup m k = some e₀) (e : Entry) : alookup (aupdate m k e) k = some e := by
  induction m with
  | nil => simp [alookup] at h
  | cons p t ih =>
    obtain ⟨k', e'⟩ := p
    by_cases hk : k' = k
    · subst hk
      simp [alookup, aupdate]
    · simp only [aupdate, if_neg hk, alookup]
      simp only [alookup, if_neg hk] at h
      exact ih h

theorem alookup_aupdate_ne {m : List (String × Entry)} {k k' : String} (e : Entry)
    (h : ¬ k' = k) : alookup (aupdate m k e) k' = alookup m k' := by
  induction m with
  | nil => rfl
  | cons p t ih =>
    obtain ⟨k₀, e₀⟩ := p
    by_cases hk : k₀ = k
    · subst hk
      have hne : ¬ k₀ = k' := fun hh => h hh.symm
      simp [aupdate, alookup, hne]
    · simp [aupdate, hk, alookup, ih]

theorem aupdate_self {m : List (String × Entry)} {k : String} {e : Entry}
    (h : alookup m k = some e) : aupdate m k e = m := by
  induction m with
  | nil => rfl
  | cons p t ih =>
    obtain ⟨k₀, e₀⟩ := p
    by_cases hk : k₀ = k
    · subst hk
      have he : e₀ = e := by
        simpa [alookup] using h
      simp [aupdate, he]
    · have ht : alookup t k = some e := by simpa [alookup, hk] using h
      simp [aupdate, hk, ih ht]

theorem alookup_append (m₁ m₂ : List (String × Entry)) (k : String) :
    alookup (m₁ ++ m₂) k = (alookup m₁ k).or (alookup m₂ k) := by
  induction m₁ with
  | nil => simp [alookup]
  | cons p t ih =>
    obtain ⟨k', e⟩ := p
    by_cases h : k' = k <;> simp [alookup, h, ih]

theorem keys_getOrCreate (m : List (String × Entry)) (k : String) :
    (getOrCreate m k).map Prod.fst =
      if (alookup m k).isSome then m.map Prod.fst else m.map Prod.fst ++ [k] := by
  unfold getOrCreate
  by_cases h : (alookup m k).isSome <;> simp [h]

theorem alookup_getOrCreate_same (m : List (String × Entry)) (k : String) :
    alookup (getOrCreate m k) k = some ((alookup m k).getD defaultEntry) := by
  unfold getOrCreate
  by_cases h : (alookup m k).isSome
  · rw [if_pos h]
    obtain ⟨e, he⟩ := Option.isSome_iff_exists.mp h
    simp [he]
  · rw [if_neg h, alookup_append]
    have hn : alookup m k = none := Option.not_isSome_iff_eq_none.mp h
    simp [hn, alookup]

theorem alookup_getOrCreate_ne (m : List (String × Entry)) {k k' : String}
    (h : ¬ k' = k) : alookup (getOrCreate m k) k' = alookup m k' := by
  unfold getOrCreate
  by_cases hs : (alookup m k).isSome
  · rw [if_pos hs]
  · rw [if_neg hs, alookup_append]
    have hne : ¬ k = k' := fun hh => h hh.symm
    simp only [alookup, if_neg hne]
    cases alookup m k' <;> rfl

theorem nodup_keys_getOrCreate {m : List (String × Entry)} (k : String)
    (h : (m.map Prod.fst).Nodup) : ((getOrCreate m k).map Prod.fst).Nodup := by
  unfold getOrCreate
  by_cases hs : (alookup m k).isSome
  · rwa [if_pos hs]
  · rw [if_neg hs]
    have hk : k ∉ m.map Prod.fst := fun hm => hs (alookup_isSome_iff_mem.mpr hm)
    simp only [List.map_append, List.map_cons, List.map_nil]
    refine List.Nodup.append h (List.nodup_singleton k) ?_
    intro a ha hb
    rw [List.mem_singleton] at hb
    subst hb
    exact hk ha

theorem mem_saddSet_iff {l : List String} {s x : String} :
    x ∈ saddSet l s ↔ x ∈ l ∨ x = s := by
  unfold saddSet
  by_cases h : s ∈ l
  · simp only [if_pos h]
    constructor
    · exact Or.inl
    · rintro (hx | rfl)
      · exact hx
      · exact h
  · simp [if_neg h]

theorem mem_saddSet_self (l : List String) (s : String) : s ∈ saddSet l s :=
  mem_saddSet_iff.mpr (Or.inr rfl)

theorem mem_saddSet_of_mem {l : List String} {x : String} (s : String) (h : x ∈ l) :
    x ∈ saddSet l s := mem_saddSet_iff.mpr (Or.inl h)

theorem saddSet_eq_self_of_mem {l : List String} {s : String} (h : s ∈ l) :
    saddSet l s = l := by simp [saddSet, h]

/-! ## Projection lemmas -/

theorem sourcesOf_getOrCreate (m : List (String × Entry)) (k a : String) :
    sourcesOf (getOrCreate m k) a = sourcesOf m a := by
  by_cases h : a = k
  · subst h
    unfold sourcesOf
    rw [alookup_getOrCreate_same]
    cases hm : alookup m a <;> simp [hm, defaultEntry]
  · unfold sourcesOf
    rw [alookup_getOrCreate_ne m h]

theorem linkedOf_getOrCreate (m : List (String × Entry)) (k a : String) :
    linkedOf (getOrCreate m k) a = linkedOf m a := by
  by_cases h : a = k
  · subst h
    unfold linkedOf
    rw [alookup_getOrCreate_same]
    cases hm : alookup m a <;> simp [hm, defaultEntry]
  · unfold linkedOf
    rw [alookup_getOrCreate_ne m h]

theorem sourcesOf_aupdate_ne (m : List (String × Entry)) {k a : String} (e : Entry)
    (h : ¬ a = k) : sourcesOf (aupdate m k e) a = sourcesOf m a := by
  unfold sourcesOf
  rw [alookup_aupdate_ne e h]

theorem linkedOf_aupdate_ne (m : List (String × Entry)) {k a : String} (e : Entry)
    (h : ¬ a = k) : linkedOf (aupdate m k e) a = linkedOf m a := by
  unfold linkedOf
  rw [alookup_aupdate_ne e h]

/-! ## The state invariant -/

/-- Invariant of every reachable `correlation_map`:
keys are unique; every non-`'raw_data'` entry carries an `'importance'`
(a nonnegative rational) and a `'linked_entities'` key; links are
symmetric; and every stored link joins two distinct existing
non-`'raw_data'` keys that share at least one source. -/
structure WFmap (m : List (String × Entry)) : Prop where
  nodup : (m.map Prod.fst).Nodup
  imp_entity : ∀ k e, alookup m k = some e → ¬ k = "raw_data" →
      ∃ q, e.importance = some q ∧ 0 ≤ q
  linked_entity : ∀ k e, alookup m k = some e → ¬ k = "raw_data" →
      ∃ l, e.linked_entities = some l
  link_symm : ∀ a b, b ∈ linkedOf m a → a ∈ linkedOf m b
  link_sound : ∀ a b, b ∈ linkedOf m a →
      ¬ a = b ∧ ¬ a = "raw_data" ∧ ¬ b = "raw_data" ∧
      (alookup m b).isSome ∧ ∃ s, s ∈ sourcesOf m a ∧ s ∈ sourcesOf m b

/-- Transfer of the invariant along a map change that keeps links
identical, only grows source sets and only adds keys. -/
theorem WFmap.congr {m m' : List (String × Entry)} (h : WFmap m)
    (hn : (m'.map Prod.fst).Nodup)
    (himp : ∀ k e', alookup m' k = some e' → ¬ k = "raw_data" →
        ∃ q, e'.importance = some q ∧ 0 ≤ q)
    (hlink : ∀ k e', alookup m' k = some e' → ¬ k = "raw_data" →
        ∃ l, e'.linked_entities = some l)
    (hL : ∀ a, linkedOf m' a = linkedOf m a)
    (hS : ∀ a s, s ∈ sourcesOf m a → s ∈ sourcesOf m' a)
    (hSome : ∀ b, (alookup m b).isSome → (alookup m' b).isSome) : WFmap m' where
  nodup := hn
  imp_entity := himp
  linked_entity := hlink
  link_symm := fun a b hb => by
    rw [hL]
    exact h.link_symm a b (by rwa [hL] at hb)
  link_sound := fun a b hb => by
    obtain ⟨h1, h2, h3, h4, s, hs1, hs2⟩ := h.link_sound a b (by rwa [hL] at hb)
    exact ⟨h1, h2, h3, hSome b h4, s, hS a s hs1, hS b s hs2⟩

/-! ## Characterizing one ingestion step -/

/-- Replace the `correlation_map` of a state (proof-side shorthand). -/
def setMap (st : EngineState) (m : List (String × Entry)) : EngineState :=
  { st with correlation_map := m }

/-- The entry written back by the success path of `ingestObs`. -/
def okEntry (m : List (String × Entry)) (key : String) (t : Option String)
    (src : String) (imp : ℚ) (o : Obs) : Entry :=
  { preEntry m key t src with
    importance := some (max imp ((o.importance_score?).getD (1/2))),
    occurrences := some (((preEntry m key t src).occurrences.getD []) ++ [o]) }

/-- The error path of `ingestObs` on a well-shaped observation: the
`['importance']` access raises, after the `type`/`sources` mutations. -/
theorem ingestObs_eq_err (st : EngineState) (src : String) (o : Obs) {v : String}
    {t : Option String} (hv : o.value? = some v) (ht : o.type? = some t)
    (himp : (preEntry st.correlation_map (normalizeKey v) t src).importance = none) :
    ingestObs st src o =
      (setMap st (aupdate (getOrCreate st.correlation_map (normalizeKey v)) (normalizeKey v)
        (preEntry st.correlation_map (normalizeKey v) t src)), true) := by
  simp only [ingestObs, hv, ht, himp, setMap]

/-- The success path of `ingestObs` on a well-shaped observation. -/
theorem ingestObs_eq_ok (st : EngineState) (src : String) (o : Obs) {v : String}
    {t : Option String} {imp : ℚ} (hv : o.value? = some v) (ht : o.type? = some t)
    (himp : (preEntry st.correlation_map (normalizeKey v) t src).importance = some imp) :
    ingestObs st src o =
      (setMap st (aupdate (getOrCreate st.correlation_map (normalizeKey v)) (normalizeKey v)
        (okEntry st.correlation_map (normalizeKey v) t src imp o)), false) := by
  simp only [ingestObs, hv, ht, himp, setMap, okEntry]

theorem preEntry_linked (m : List (String × Entry)) (key : String) (t : Option String)
    (src : String) : (preEntry m key t src).linked_entities =
      ((alookup (getOrCreate m key) key).getD defaultEntry).linked_entities := by
  unfold preEntry
  by_cases h : ((alookup (getOrCreate m key) key).getD defaultEntry).type = none <;> simp [h]

theorem preEntry_importance (m : List (String × Entry)) (key : String) (t : Option String)
    (src : String) : (preEntry m key t src).importance =
      ((alookup (getOrCreate m key) key).getD defaultEntry).importance := by
  unfold preEntry
  by_cases h : ((alookup (getOrCreate m key) key).getD defaultEntry).type = none <;> simp [h]

theorem preEntry_sources (m : List (String × Entry)) (key : String) (t : Option String)
    (src : String) : (preEntry m key t src).sources =
      saddSet ((alookup (getOrCreate m key) key).getD defaultEntry).sources src := by
  unfold preEntry
  by_cases h : ((alookup (getOrCreate m key) key).getD defaultEntry).type = none <;> simp [h]

theorem preEntry_type (m : List (String × Entry)) (key : String) (t : Option String)
    (src : String) : (preEntry m key t src).type =
      (if ((alookup (getOrCreate m key) key).getD defaultEntry).type = none then t
       else ((alookup (getOrCreate m key) key).getD defaultEntry).type) := by
  unfold preEntry
  by_cases h : ((alookup (getOrCreate m key) key).getD defaultEntry).type = none <;> simp [h]

/-! ## Invariant preservation -/

theorem WFmap_getOrCreate {m : List (String × Entry)} (h : WFmap m) (k : String) :
    WFmap (getOrCreate m k) := by
  refine h.congr (nodup_keys_getOrCreate k h.nodup) ?_ ?_
    (fun a => linkedOf_getOrCreate m k a)
    (fun a s hs => by rwa [sourcesOf_getOrCreate]) ?_
  · intro k' e' he' hk'
    by_cases hkk : k' = k
    · subst hkk
      rw [alookup_getOrCreate_same] at he'
      rcases hm : alookup m k' with _ | e₀
      · rw [hm] at he'
        simp only [Option.getD_none, Option.some.injEq] at he'
        exact ⟨0, by simp [← he', defaultEntry], le_refl 0⟩
      · rw [hm] at he'
        simp only [Option.getD_some, Option.some.injEq] at he'
        exact he' ▸ h.imp_entity k' e₀ hm hk'
    · rw [alookup_getOrCreate_ne m hkk] at he'
      exact h.imp_entity k' e' he' hk'
  · intro k' e' he' hk'
    by_cases hkk : k' = k
    · subst hkk
      rw [alookup_getOrCreate_same] at he'
      rcases hm : alookup m k' with _ | e₀
      · rw [hm] at he'
        simp only [Option.getD_none, Option.some.injEq] at he'
        exact ⟨[], by simp [← he', defaultEntry]⟩
      · rw [hm] at he'
        simp only [Option.getD_some, Option.some.injEq] at he'
        exact he' ▸ h.linked_entity k' e₀ hm hk'
    · rw [alookup_getOrCreate_ne m hkk] at he'
      exact h.linked_entity k' e' he' hk'
  · intro b hb
    by_cases hkk : b = k
    · subst hkk
      rw [alookup_getOrCreate_same]
      rfl
    · rwa [alookup_getOrCreate_ne m hkk]

/-- Overwriting an existing entry with one that keeps `linked_entities`,
only grows `sources`, and carries a sane importance preserves `WFmap`. -/
theorem WFmap_aupdate {m : List (String × Entry)} (h : WFmap m) {key : String}
    {e₀ eF : Entry} (h₀ : alookup m key = some e₀)
    (hlink : eF.linked_entities = e₀.linked_entities)
    (hsrc : ∀ s, s ∈ e₀.sources → s ∈ eF.sources)
    (himp : ¬ key = "raw_data" → ∃ q, eF.importance = some q ∧ 0 ≤ q)
    (hlinkp : ¬ key = "raw_data" → ∃ l, eF.linked_entities = some l) :
    WFmap (aupdate m key eF) := by
  refine h.congr ?_ ?_ ?_ ?_ ?_ ?_
  · rw [keys_aupdate]
    exact h.nodup
  · intro k' e' he' hk'
    by_cases hkk : k' = key
    · subst hkk
      rw [alookup_aupdate_same h₀ eF] at he'
      cases he'
      exact himp hk'
    · rw [alookup_aupdate_ne eF hkk] at he'
      exact h.imp_entity k' e' he' hk'
  · intro k' e' he' hk'
    by_cases hkk : k' = key
    · subst hkk
      rw [alookup_aupdate_same h₀ eF] at he'
      cases he'
      exact hlinkp hk'
    · rw [alookup_aupdate_ne eF hkk] at he'
      exact h.linked_entity k' e' he' hk'
  · intro a
    by_cases hkk : a = key
    · subst hkk
      unfold linkedOf
      rw [alookup_aupdate_same h₀ eF, h₀]
      simp [hlink]
    · exact linkedOf_aupdate_ne m eF hkk
  · intro a s hs
    by_cases hkk : a = key
    · subst hkk
      unfold sourcesOf at hs ⊢
      rw [h₀] at hs
      rw [alookup_aupdate_same h₀ eF]
      exact hsrc s (by simpa using hs)
    · rwa [sourcesOf_aupdate_ne m eF hkk]
  · intro b hb
    rw [alookup_isSome_iff_mem, keys_aupdate]
    rwa [alookup_isSome_iff_mem] at hb

theorem WFmap_ingestObs {st : EngineState} (src : String) (o : Obs)
    (h : WFmap st.correlation_map) : WFmap (ingestObs st src o).1.correlation_map := by
  rcases hv : o.value? with _ | v
  · simpa [ingestObs, hv] using h
  rcases ht : o.type? with _ | t
  · simpa [ingestObs, hv, ht] using h
  have h₁ : WFmap (getOrCreate st.correlation_map (normalizeKey v)) :=
    WFmap_getOrCreate h (normalizeKey v)
  have h₀ := alookup_getOrCreate_same st.correlation_map (normalizeKey v)
  have hlk := preEntry_linked st.correlation_map (normalizeKey v) t src
  have hsc := preEntry_sources st.correlation_map (normalizeKey v) t src
  have him := preEntry_importance st.correlation_map (normalizeKey v) t src
  rw [h₀] at hlk hsc him
  simp only [Option.getD_some] at hlk hsc him
  rcases himp : (preEntry st.correlation_map (normalizeKey v) t src).importance with _ | imp
  · rw [ingestObs_eq_err st src o hv ht himp]
    refine WFmap_aupdate h₁ h₀ hlk ?_ ?_ ?_
    · rw [hsc]
      intro s hs
      exact mem_saddSet_of_mem src hs
    · intro hk
      obtain ⟨q, hq, _⟩ := h₁.imp_entity (normalizeKey v) _ h₀ hk
      rw [him, hq] at himp
      cases himp
    · intro hk
      obtain ⟨l, hl⟩ := h₁.linked_entity (normalizeKey v) _ h₀ hk
      exact ⟨l, hlk.trans hl⟩
  · rw [ingestObs_eq_ok st src o hv ht himp]
    refine WFmap_aupdate h₁ h₀ hlk ?_ ?_ ?_
    · intro s hs
      show s ∈ (preEntry st.correlation_map (normalizeKey v) t src).sources
      rw [hsc]
      exact mem_saddSet_of_mem src hs
    · intro hk
      obtain ⟨q, hq, hq0⟩ := h₁.imp_entity (normalizeKey v) _ h₀ hk
      rw [him, hq] at himp
      cases himp
      exact ⟨_, rfl, le_trans hq0 (le_max_left _ _)⟩
    · intro hk
      obtain ⟨l, hl⟩ := h₁.linked_entity (normalizeKey v) _ h₀ hk
      exact ⟨l, hlk.trans hl⟩

theorem WFmap_ingestObsList {st : EngineState} (src : String) (l : List Obs)
    (h : WFmap st.correlation_map) : WFmap (ingestObsList st src l).1.correlation_map := by
  induction l generalizing st with
  | nil => exact h
  | cons o tl ih =>
    rw [ingestObsList]
    rcases hstep : ingestObs st src o with ⟨st', err⟩
    have h' : WFmap st'.correlation_map := by
      have := WFmap_ingestObs src o h
      rwa [hstep] at this
    cases err
    · exact ih h'
    · exact h'

theorem WFmap_add_parsed_entities {st : EngineState} (groups : List (String × List Obs))
    (h : WFmap st.correlation_map) :
    WFmap (add_parsed_entities st groups).1.correlation_map := by
  induction groups generalizing st with
  | nil => exact h
  | cons g tl ih =>
    obtain ⟨src, l⟩ := g
    rw [add_parsed_entities]
    rcases hstep : ingestObsList st src l with ⟨st', err⟩
    have h' : WFmap st'.correlation_map := by
      have := WFmap_ingestObsList src l h
      rwa [hstep] at this
    cases err
    · exact ih h'
    · exact h'

theorem addRawOne_found {st : EngineState} {e : Entry} {d : List (String × String)}
    (source content : String) (he : alookup st.correlation_map "raw_data" = some e)
    (hd : e.data = some d) :
    addRawOne st source content =
      (setMap st (aupdate st.correlation_map "raw_data"
        { e with data := some (dput d source content) }), false) := by
  simp only [addRawOne, he, hd, Option.isSome_some, if_true, setMap]

theorem addRawOne_nodata {st : EngineState} {e : Entry} (source content : String)
    (he : alookup st.correlation_map "raw_data" = some e) (hd : e.data = none) :
    addRawOne st source content = (setMap st st.correlation_map, true) := by
  simp only [addRawOne, he, hd, Option.isSome_some, if_true, setMap]

theorem addRawOne_fresh {st : EngineState} (source content : String)
    (he : alookup st.correlation_map "raw_data" = none) :
    addRawOne st source content =
      (setMap st (aupdate (st.correlation_map ++ [("raw_data", corpusInit)]) "raw_data"
        { corpusInit with data := some (dput [] source content) }), false) := by
  have happ : alookup (st.correlation_map ++ [("raw_data", corpusInit)]) "raw_data" =
      some corpusInit := by
    rw [alookup_append, he]
    simp [alookup]
  simp only [addRawOne, he, happ, Option.isSome_none, Bool.false_eq_true, if_false, setMap]
  rfl

theorem alookup_append_corpus {st : EngineState}
    (hn : alookup st.correlation_map "raw_data" = none) (k : String) :
    alookup (st.correlation_map ++ [("raw_data", corpusInit)]) k =
      if k = "raw_data" then some corpusInit else alookup st.correlation_map k := by
  rw [alookup_append]
  by_cases hk : k = "raw_data"
  · subst hk
    rw [hn]
    simp [alookup]
  · have hnr : ¬ "raw_data" = k := fun hh => hk hh.symm
    rw [if_neg hk]
    simp only [alookup, if_neg hnr]
    cases alookup st.correlation_map k <;> rfl

theorem WFmap_addRawOne {st : EngineState} (source content : String)
    (h : WFmap st.correlation_map) : WFmap (addRawOne st source content).1.correlation_map := by
  rcases hrd : alookup st.correlation_map "raw_data" with _ | e
  · rw [addRawOne_fresh source content hrd]
    have hn := hrd
    have happ : alookup (st.correlation_map ++ [("raw_data", corpusInit)]) "raw_data" =
        some corpusInit := by
      rw [alookup_append, hn]
      simp [alookup]
    have hwfapp : WFmap (st.correlation_map ++ [("raw_data", corpusInit)]) := by
      refine h.congr ?_ ?_ ?_ ?_ ?_ ?_
      · have hnotmem : "raw_data" ∉ st.correlation_map.map Prod.fst := fun hm => by
          rw [← alookup_isSome_iff_mem, hn] at hm
          cases hm
        simp only [List.map_append, List.map_cons, List.map_nil]
        refine List.Nodup.append h.nodup (List.nodup_singleton _) ?_
        intro a ha hb
        rw [List.mem_singleton] at hb
        subst hb
        exact hnotmem ha
      · intro k e' he' hk
        rw [alookup_append_corpus hn k, if_neg hk] at he'
        exact h.imp_entity k e' he' hk
      · intro k e' he' hk
        rw [alookup_append_corpus hn k, if_neg hk] at he'
        exact h.linked_entity k e' he' hk
      · intro a
        unfold linkedOf
        rw [alookup_append_corpus hn a]
        by_cases hka : a = "raw_data"
        · subst hka
          rw [if_pos rfl, hn]
          rfl
        · rw [if_neg hka]
      · intro a s hs
        unfold sourcesOf at hs ⊢
        rw [alookup_append_corpus hn a]
        by_cases hka : a = "raw_data"
        · subst hka
          rw [hn] at hs
          simp at hs
        · rw [if_neg hka]
          exact hs
      · intro b hb
        obtain ⟨e', he'⟩ := Option.isSome_iff_exists.mp hb
        rw [alookup_append_corpus hn b]
        by_cases hkb : b = "raw_data"
        · rw [if_pos hkb]
          rfl
        · rw [if_neg hkb, he']
          rfl
    exact WFmap_aupdate hwfapp happ rfl (fun s hs => hs)
      (fun hk => absurd rfl hk) (fun hk => absurd rfl hk)
  · rcases hd : e.data with _ | d
    · rw [addRawOne_nodata source content hrd hd]
      exact h
    · rw [addRawOne_found source content hrd hd]
      exact WFmap_aupdate h hrd rfl (fun s hs => hs)
        (fun hk => h.imp_entity "raw_data" e hrd hk)
        (fun hk => h.linked_entity "raw_data" e hrd hk)

theorem WFmap_add_raw_data {st : EngineState} (raw : List (String × String))
    (h : WFmap st.correlation_map) : WFmap (add_raw_data st raw).1.correlation_map := by
  induction raw generalizing st with
  | nil => exact h
  | cons g tl ih =>
    obtain ⟨source, content⟩ := g
    rw [add_raw_data]
    rcases hstep : addRawOne st source content with ⟨st', err⟩
    have h' : WFmap st'.correlation_map := by
      have := WFmap_addRawOne source content h
      rwa [hstep] at this
    cases err
    · exact ih h'
    · exact h'

/-! ## Link discovery: effect of `_find_entity_links` -/

/-- Forget the `linked_entities` field; `_find_entity_links` changes an
entry only up to this projection. -/
def stripLinked (e : Entry) : Entry := { e with linked_entities := none }

theorem keys_addLinked (m : List (String × Entry)) (a b : String) :
    (addLinked m a b).map Prod.fst = m.map Prod.fst := by
  unfold addLinked
  cases alookup m a
  · rfl
  · exact keys_aupdate m a _

theorem strip_addLinked (m : List (String × Entry)) (a b k : String) :
    (alookup (addLinked m a b) k).map stripLinked = (alookup m k).map stripLinked := by
  unfold addLinked
  rcases ha : alookup m a with _ | e
  · rfl
  · by_cases hk : k = a
    · subst hk
      rw [alookup_aupdate_same ha, ha]
      rfl
    · rw [alookup_aupdate_ne _ hk]

theorem strip_proj {γ : Type} (f : Entry → γ) (hf : ∀ e, f (stripLinked e) = f e)
    {x y : Option Entry} (hxy : x.map stripLinked = y.map stripLinked) :
    x.map f = y.map f := by
  have h1 : (x.map stripLinked).map f = (y.map stripLinked).map f := by rw [hxy]
  rw [Option.map_map, Option.map_map] at h1
  calc x.map f = x.map (f ∘ stripLinked) := by
        cases x <;> simp [Function.comp, hf]
    _ = y.map (f ∘ stripLinked) := h1
    _ = y.map f := by cases y <;> simp [Function.comp, hf]

theorem sourcesOf_addLinked (m : List (String × Entry)) (a b k : String) :
    sourcesOf (addLinked m a b) k = sourcesOf m k := by
  unfold sourcesOf
  rw [strip_proj Entry.sources (fun e => rfl) (strip_addLinked m a b k)]

theorem linkedOf_addLinked_self {m : List (String × Entry)} {a : String} (b : String)
    (h : (alookup m a).isSome) :
    linkedOf (addLinked m a b) a = saddSet (linkedOf m a) b := by
  obtain ⟨e, he⟩ := Option.isSome_iff_exists.mp h
  unfold addLinked
  rw [he]
  unfold linkedOf
  rw [alookup_aupdate_same he, he]
  rfl

theorem linkedOf_addLinked_ne (m : List (String × Entry)) {a k : String} (b : String)
    (h : ¬ k = a) : linkedOf (addLinked m a b) k = linkedOf m k := by
  unfold addLinked
  rcases ha : alookup m a with _ | e
  · rfl
  · unfold linkedOf
    rw [alookup_aupdate_ne _ h]

theorem linkStep_rels (st : EngineState) (p : String × String) :
    (linkStep st p).relationships = st.relationships ++
      (if h : commonSources st.correlation_map p.1 p.2 = [] then []
       else [⟨p.1, p.2, "co_occurrence", commonSources st.correlation_map p.1 p.2,
             (commonSources st.correlation_map p.1 p.2).length⟩]) := by
  unfold linkStep
  by_cases h : commonSources st.correlation_map p.1 p.2 = [] <;> simp [h]

theorem linkStep_strip (st : EngineState) (p : String × String) (k : String) :
    (alookup (linkStep st p).correlation_map k).map stripLinked =
      (alookup st.correlation_map k).map stripLinked := by
  unfold linkStep
  by_cases h : commonSources st.correlation_map p.1 p.2 = []
  · rw [if_pos h]
  · rw [if_neg h]
    show (alookup (addLinked (addLinked st.correlation_map p.1 p.2) p.2 p.1) k).map _ = _
    rw [strip_addLinked, strip_addLinked]

theorem keys_linkStep (st : EngineState) (p : String × String) :
    (linkStep st p).correlation_map.map Prod.fst = st.correlation_map.map Prod.fst := by
  unfold linkStep
  by_cases h : commonSources st.correlation_map p.1 p.2 = []
  · rw [if_pos h]
  · rw [if_neg h]
    show (addLinked (addLinked st.correlation_map p.1 p.2) p.2 p.1).map Prod.fst = _
    rw [keys_addLinked, keys_addLinked]

theorem sourcesOf_linkStep (st : EngineState) (p : String × String) (k : String) :
    sourcesOf (linkStep st p).correlation_map k = sourcesOf st.correlation_map k := by
  unfold sourcesOf
  rw [strip_proj Entry.sources (fun e => rfl) (linkStep_strip st p k)]

theorem commonSources_congr {m m' : List (String × Entry)}
    (h : ∀ a, sourcesOf m' a = sourcesOf m a) (a b : String) :
    commonSources m' a b = commonSources m a b := by
  unfold commonSources
  rw [h a, h b]

/-- The relationship emitted for one pair (if any), computed from a fixed map. -/
def relOf (m : List (String × Entry)) (p : String × String) : Option Rel :=
  if commonSources m p.1 p.2 = [] then none
  else some ⟨p.1, p.2, "co_occurrence", commonSources m p.1 p.2,
            (commonSources m p.1 p.2).length⟩

/-- All relationships emitted by one full `_find_entity_links` pass over `m`. -/
def relsPass (m : List (String × Entry)) : List Rel :=
  (pairsOf (entitiesOf m)).filterMap (relOf m)

theorem foldl_linkStep_strip (ps : List (String × String)) (st : EngineState) (k : String) :
    (alookup (ps.foldl linkStep st).correlation_map k).map stripLinked =
      (alookup st.correlation_map k).map stripLinked := by
  induction ps generalizing st with
  | nil => rfl
  | cons p t ih => rw [List.foldl_cons, ih, linkStep_strip]

theorem foldl_linkStep_keys (ps : List (String × String)) (st : EngineState) :
    (ps.foldl linkStep st).correlation_map.map Prod.fst =
      st.correlation_map.map Prod.fst := by
  induction ps generalizing st with
  | nil => rfl
  | cons p t ih => rw [List.foldl_cons, ih, keys_linkStep]

theorem foldl_linkStep_sources (ps : List (String × String)) (st : EngineState) (k : String) :
    sourcesOf (ps.foldl linkStep st).correlation_map k = sourcesOf st.correlation_map k := by
  unfold sourcesOf
  rw [strip_proj Entry.sources (fun e => rfl) (foldl_linkStep_strip ps st k)]

theorem foldl_linkStep_rels (ps : List (String × String)) (st : EngineState)
    (m : List (String × Entry)) (hsrc : ∀ a, sourcesOf st.correlation_map a = sourcesOf m a) :
    (ps.foldl linkStep st).relationships = st.relationships ++ ps.filterMap (relOf m) := by
  induction ps generalizing st with
  | nil => simp
  | cons p t ih =>
    rw [List.foldl_cons]
    have hsrc' : ∀ a, sourcesOf (linkStep st p).correlation_map a = sourcesOf m a :=
      fun a => (sourcesOf_linkStep st p a).trans (hsrc a)
    rw [ih (linkStep st p) hsrc', linkStep_rels]
    have hc : commonSources st.correlation_map p.1 p.2 = commonSources m p.1 p.2 :=
      commonSources_congr hsrc p.1 p.2
    by_cases h : commonSources m p.1 p.2 = []
    · rw [List.filterMap_cons]
      unfold relOf
      rw [if_pos h]
      rw [dif_pos (hc.trans h)]
      simp
    · rw [List.filterMap_cons]
      unfold relOf
      rw [if_neg h]
      rw [dif_neg (fun hh => h (hc.symm.trans hh)), hc]
      simp

/-- `_find_entity_links` only appends the pass's relationships. -/
theorem find_entity_links_rels (st : EngineState) :
    (find_entity_links st).relationships =
      st.relationships ++ relsPass st.correlation_map :=
  foldl_linkStep_rels _ st st.correlation_map (fun _ => rfl)

/-! ### Membership in `linked_entities` after the pass -/

theorem linkStep_linked_iff {st : EngineState} {p : String × String}
    (hne : ¬ p.1 = p.2) (h1 : (alookup st.correlation_map p.1).isSome)
    (h2 : (alookup st.correlation_map p.2).isSome) (x y : String) :
    (y ∈ linkedOf (linkStep st p).correlation_map x ↔
      y ∈ linkedOf st.correlation_map x ∨
        (¬ commonSources st.correlation_map p.1 p.2 = [] ∧
          ((x = p.1 ∧ y = p.2) ∨ (x = p.2 ∧ y = p.1)))) := by
  unfold linkStep
  by_cases hc : commonSources st.correlation_map p.1 p.2 = []
  · rw [if_pos hc]
    simp [hc]
  · rw [if_neg hc]
    show y ∈ linkedOf (addLinked (addLinked st.correlation_map p.1 p.2) p.2 p.1) x ↔ _
    have h2' : (alookup (addLinked st.correlation_map p.1 p.2) p.2).isSome := by
      rw [alookup_isSome_iff_mem, keys_addLinked]
      rwa [alookup_isSome_iff_mem] at h2
    by_cases hx1 : x = p.1
    · subst hx1
      rw [linkedOf_addLinked_ne _ p.1 hne, linkedOf_addLinked_self p.2 h1,
        mem_saddSet_iff]
      constructor
      · rintro (hy | rfl)
        · exact Or.inl hy
        · exact Or.inr ⟨hc, Or.inl ⟨rfl, rfl⟩⟩
      · rintro (hy | ⟨-, ⟨-, rfl⟩ | ⟨hx, -⟩⟩)
        · exact Or.inl hy
        · exact Or.inr rfl
        · exact absurd hx hne
    · by_cases hx2 : x = p.2
      · subst hx2
        rw [linkedOf_addLinked_self p.1 h2', linkedOf_addLinked_ne _ p.2
          (fun hh => hne hh.symm), mem_saddSet_iff]
        constructor
        · rintro (hy | rfl)
          · exact Or.inl hy
          · exact Or.inr ⟨hc, Or.inr ⟨rfl, rfl⟩⟩
        · rintro (hy | ⟨-, ⟨hx, -⟩ | ⟨-, rfl⟩⟩)
          · exact Or.inl hy
          · exact absurd hx hx1
          · exact Or.inr rfl
      · rw [linkedOf_addLinked_ne _ p.1 hx2, linkedOf_addLinked_ne _ p.2 hx1]
        constructor
        · exact Or.inl
        · rintro (hy | ⟨-, ⟨hx, -⟩ | ⟨hx, -⟩⟩)
          · exact hy
          · exact absurd hx hx1
          · exact absurd hx hx2

theorem foldl_linkStep_linked_iff (ps : List (String × String)) (st : EngineState)
    (m : List (String × Entry))
    (hsrc : ∀ a, sourcesOf st.correlation_map a = sourcesOf m a)
    (hkeys : st.correlation_map.map Prod.fst = m.map Prod.fst)
    (hval : ∀ p ∈ ps, ¬ p.1 = p.2 ∧ (alookup m p.1).isSome ∧ (alookup m p.2).isSome)
    (x y : String) :
    (y ∈ linkedOf (ps.foldl linkStep st).correlation_map x ↔
      y ∈ linkedOf st.correlation_map x ∨
        ∃ p ∈ ps, ¬ commonSources m p.1 p.2 = [] ∧
          ((x = p.1 ∧ y = p.2) ∨ (x = p.2 ∧ y = p.1))) := by
  induction ps generalizing st with
  | nil => simp
  | cons p t ih =>
    obtain ⟨hne, hp1, hp2⟩ := hval p (List.mem_cons_self p t)
    have h1 : (alookup st.correlation_map p.1).isSome := by
      rw [alookup_isSome_iff_mem, hkeys]
      rwa [alookup_isSome_iff_mem] at hp1
    have h2 : (alookup st.correlation_map p.2).isSome := by
      rw [alookup_isSome_iff_mem, hkeys]
      rwa [alookup_isSome_iff_mem] at hp2
    rw [List.foldl_cons]
    have hsrc' : ∀ a, sourcesOf (linkStep st p).correlation_map a = sourcesOf m a :=
      fun a => (sourcesOf_linkStep st p a).trans (hsrc a)
    have hkeys' : (linkStep st p).correlation_map.map Prod.fst = m.map Prod.fst :=
      (keys_linkStep st p).trans hkeys
    rw [ih (linkStep st p) hsrc' hkeys' (fun q hq => hval q (List.mem_cons_of_mem p hq)),
      linkStep_linked_iff hne h1 h2, commonSources_congr hsrc]
    constructor
    · rintro ((hy | hnew) | ⟨q, hq, hcq, hxy⟩)
      · exact Or.inl hy
      · exact Or.inr ⟨p, List.mem_cons_self p t, hnew⟩
      · exact Or.inr ⟨q, List.mem_cons_of_mem p hq, hcq, hxy⟩
    · rintro (hy | ⟨q, hq, hcq, hxy⟩)
      · exact Or.inl (Or.inl hy)
      · rcases List.mem_cons.mp hq with rfl | hq'
        · exact Or.inl (Or.inr ⟨hcq, hxy⟩)
        · exact Or.inr ⟨q, hq', hcq, hxy⟩

/-! ### Pairs and entity lists -/

theorem mem_pairsOf {α : Type} {l : List α} {p : α × α} (h : p ∈ pairsOf l) :
    p.1 ∈ l ∧ p.2 ∈ l := by
  induction l with
  | nil => cases h
  | cons x xs ih =>
    rw [pairsOf, List.mem_append] at h
    rcases h with h | h
    · obtain ⟨y, hy, hp⟩ := List.mem_map.mp h
      cases hp
      exact ⟨List.mem_cons_self x xs, List.mem_cons_of_mem x hy⟩
    · obtain ⟨h1, h2⟩ := ih h
      exact ⟨List.mem_cons_of_mem x h1, List.mem_cons_of_mem x h2⟩

theorem pairsOf_ne {α : Type} {l : List α} (hn : l.Nodup) {p : α × α}
    (h : p ∈ pairsOf l) : ¬ p.1 = p.2 := by
  induction l with
  | nil => cases h
  | cons x xs ih =>
    rw [pairsOf, List.mem_append] at h
    rcases h with h | h
    · obtain ⟨y, hy, hp⟩ := List.mem_map.mp h
      cases hp
      intro hxy
      have hxy' : x = y := hxy
      exact (List.nodup_cons.mp hn).1 (hxy' ▸ hy)
    · exact ih (List.nodup_cons.mp hn).2 h

theorem pairsOf_complete {α : Type} {l : List α} (hn : l.Nodup) {a b : α}
    (ha : a ∈ l) (hb : b ∈ l) (hab : ¬ a = b) :
    (a, b) ∈ pairsOf l ∨ (b, a) ∈ pairsOf l := by
  induction l with
  | nil => cases ha
  | cons x xs ih =>
    rcases List.mem_cons.mp ha with rfl | ha'
    · have hb' : b ∈ xs := by
        rcases List.mem_cons.mp hb with rfl | hb'
        · exact absurd rfl hab
        · exact hb'
      exact Or.inl (by
        rw [pairsOf, List.mem_append]
        exact Or.inl (List.mem_map.mpr ⟨b, hb', rfl⟩))
    · rcases List.mem_cons.mp hb with rfl | hb'
      · exact Or.inr (by
          rw [pairsOf, List.mem_append]
          exact Or.inl (List.mem_map.mpr ⟨a, ha', rfl⟩))
      · rcases ih (List.nodup_cons.mp hn).2 ha' hb' with h | h
        · exact Or.inl (by rw [pairsOf, List.mem_append]; exact Or.inr h)
        · exact Or.inr (by rw [pairsOf, List.mem_append]; exact Or.inr h)

theorem mem_entitiesOf {m : List (String × Entry)} {k : String} :
    k ∈ entitiesOf m ↔ k ∈ m.map Prod.fst ∧ ¬ k = "raw_data" := by
  unfold entitiesOf
  rw [List.mem_filter]
  simp

theorem entitiesOf_nodup {m : List (String × Entry)}
    (h : (m.map Prod.fst).Nodup) : (entitiesOf m).Nodup :=
  h.filter _

theorem entitiesOf_keys_congr {m m' : List (String × Entry)}
    (h : m'.map Prod.fst = m.map Prod.fst) : entitiesOf m' = entitiesOf m := by
  unfold entitiesOf
  rw [h]

theorem commonSources_ne_nil_iff {m : List (String × Entry)} {a b : String} :
    ¬ commonSources m a b = [] ↔
      ∃ s, s ∈ sourcesOf m a ∧ s ∈ sourcesOf m b := by
  unfold commonSources
  constructor
  · intro h
    rcases hl : (sourcesOf m a).filter (fun s => decide (s ∈ sourcesOf m b)) with _ | ⟨s, tl⟩
    · exact absurd hl h
    · have hs : s ∈ (sourcesOf m a).filter (fun s => decide (s ∈ sourcesOf m b)) := by
        rw [hl]
        exact List.mem_cons_self s tl
      obtain ⟨h1, h2⟩ := List.mem_filter.mp hs
      exact ⟨s, h1, of_decide_eq_true h2⟩
  · rintro ⟨s, h1, h2⟩ hnil
    have hs : s ∈ (sourcesOf m a).filter (fun s => decide (s ∈ sourcesOf m b)) :=
      List.mem_filter.mpr ⟨h1, decide_eq_true h2⟩
    rw [hnil] at hs
    cases hs

theorem commonSources_swap_iff {m : List (String × Entry)} {a b : String} :
    (¬ commonSources m a b = []) ↔ (¬ commonSources m b a = []) := by
  rw [commonSources_ne_nil_iff, commonSources_ne_nil_iff]
  exact ⟨fun ⟨s, h1, h2⟩ => ⟨s, h2, h1⟩, fun ⟨s, h1, h2⟩ => ⟨s, h2, h1⟩⟩

theorem linkedOf_mem_isSome {m : List (String × Entry)} {a b : String}
    (h : b ∈ linkedOf m a) : (alookup m a).isSome := by
  unfold linkedOf at h
  by_cases ha : (alookup m a).isSome
  · exact ha
  · exfalso
    rw [Option.not_isSome_iff_eq_none.mp ha] at h
    cases h

/-! ### The `linked_entities` key stays present on entity entries -/

theorem linked_some_addLinked {m : List (String × Entry)}
    (h : ∀ k e, alookup m k = some e → ¬ k = "raw_data" → ∃ l, e.linked_entities = some l)
    (a b : String) :
    ∀ k e, alookup (addLinked m a b) k = some e → ¬ k = "raw_data" →
      ∃ l, e.linked_entities = some l := by
  intro k e he hk
  unfold addLinked at he
  rcases ha : alookup m a with _ | e₀
  · rw [ha] at he
    exact h k e he hk
  · rw [ha] at he
    by_cases hka : k = a
    · subst hka
      rw [alookup_aupdate_same ha] at he
      cases he
      exact ⟨_, rfl⟩
    · rw [alookup_aupdate_ne _ hka] at he
      exact h k e he hk

theorem linked_some_linkStep {st : EngineState}
    (h : ∀ k e, alookup st.correlation_map k = some e → ¬ k = "raw_data" →
      ∃ l, e.linked_entities = some l) (p : String × String) :
    ∀ k e, alookup (linkStep st p).correlation_map k = some e → ¬ k = "raw_data" →
      ∃ l, e.linked_entities = some l := by
  unfold linkStep
  by_cases hc : commonSources st.correlation_map p.1 p.2 = []
  · rw [if_pos hc]
    exact h
  · rw [if_neg hc]
    exact linked_some_addLinked (linked_some_addLinked h p.1 p.2) p.2 p.1

theorem linked_some_foldl (ps : List (String × String)) (st : EngineState)
    (h : ∀ k e, alookup st.correlation_map k = some e → ¬ k = "raw_data" →
      ∃ l, e.linked_entities = some l) :
    ∀ k e, alookup (ps.foldl linkStep st).correlation_map k = some e → ¬ k = "raw_data" →
      ∃ l, e.linked_entities = some l := by
  induction ps generalizing st with
  | nil => exact h
  | cons p t ih =>
    rw [List.foldl_cons]
    exact ih (linkStep st p) (linked_some_linkStep h p)

/-- After `_find_entity_links` on a well-formed state, two keys are linked
exactly when they are distinct non-`'raw_data'` keys of the map that share
at least one source. -/
theorem find_entity_links_linked_iff {st : EngineState} (h : WFmap st.correlation_map)
    (x y : String) :
    (y ∈ linkedOf (find_entity_links st).correlation_map x ↔
      (¬ x = y ∧ ¬ x = "raw_data" ∧ ¬ y = "raw_data" ∧
        (alookup st.correlation_map x).isSome ∧ (alookup st.correlation_map y).isSome ∧
        ¬ commonSources st.correlation_map x y = [])) := by
  have hval : ∀ p ∈ pairsOf (entitiesOf st.correlation_map),
      ¬ p.1 = p.2 ∧ (alookup st.correlation_map p.1).isSome ∧
        (alookup st.correlation_map p.2).isSome := by
    intro p hp
    obtain ⟨h1, h2⟩ := mem_pairsOf hp
    refine ⟨pairsOf_ne (entitiesOf_nodup h.nodup) hp, ?_, ?_⟩
    · exact alookup_isSome_iff_mem.mpr (mem_entitiesOf.mp h1).1
    · exact alookup_isSome_iff_mem.mpr (mem_entitiesOf.mp h2).1
  rw [find_entity_links,
    foldl_linkStep_linked_iff _ st st.correlation_map (fun _ => rfl) rfl hval]
  constructor
  · rintro (hy | ⟨p, hp, hcp, hxy⟩)
    · obtain ⟨h1, h2, h3, h4, s, hs1, hs2⟩ := h.link_sound x y hy
      exact ⟨h1, h2, h3, linkedOf_mem_isSome hy, h4,
        commonSources_ne_nil_iff.mpr ⟨s, hs1, hs2⟩⟩
    · obtain ⟨hm1, hm2⟩ := mem_pairsOf hp
      obtain ⟨hk1, hr1⟩ := mem_entitiesOf.mp hm1
      obtain ⟨hk2, hr2⟩ := mem_entitiesOf.mp hm2
      have hne := pairsOf_ne (entitiesOf_nodup h.nodup) hp
      rcases hxy with ⟨rfl, rfl⟩ | ⟨rfl, rfl⟩
      · exact ⟨hne, hr1, hr2, alookup_isSome_iff_mem.mpr hk1,
          alookup_isSome_iff_mem.mpr hk2, hcp⟩
      · exact ⟨fun hh => hne hh.symm, hr2, hr1, alookup_isSome_iff_mem.mpr hk2,
          alookup_isSome_iff_mem.mpr hk1, commonSources_swap_iff.mp hcp⟩
  · rintro ⟨hne, hr1, hr2, hx, hy, hc⟩
    have hex : x ∈ entitiesOf st.correlation_map :=
      mem_entitiesOf.mpr ⟨alookup_isSome_iff_mem.mp hx, hr1⟩
    have hey : y ∈ entitiesOf st.correlation_map :=
      mem_entitiesOf.mpr ⟨alookup_isSome_iff_mem.mp hy, hr2⟩
    rcases pairsOf_complete (entitiesOf_nodup h.nodup) hex hey hne with hp | hp
    · exact Or.inr ⟨(x, y), hp, hc, Or.inl ⟨rfl, rfl⟩⟩
    · exact Or.inr ⟨(y, x), hp, commonSources_swap_iff.mp hc, Or.inr ⟨rfl, rfl⟩⟩

theorem strip_eq_some {x y : Option Entry} {e' : Entry}
    (hxy : x.map stripLinked = y.map stripLinked) (hx : x = some e') :
    ∃ e₀, y = some e₀ ∧ stripLinked e' = stripLinked e₀ := by
  rw [hx] at hxy
  rcases hy : y with _ | e₀
  · rw [hy] at hxy
    cases hxy
  · rw [hy] at hxy
    exact ⟨e₀, rfl, by simpa using hxy⟩

theorem WFmap_find_entity_links {st : EngineState} (h : WFmap st.correlation_map) :
    WFmap (find_entity_links st).correlation_map := by
  have hkeys : (find_entity_links st).correlation_map.map Prod.fst =
      st.correlation_map.map Prod.fst := foldl_linkStep_keys _ st
  have hstrip := foldl_linkStep_strip (pairsOf (entitiesOf st.correlation_map)) st
  have hsrc : ∀ a, sourcesOf (find_entity_links st).correlation_map a =
      sourcesOf st.correlation_map a := foldl_linkStep_sources _ st
  refine ⟨?_, ?_, ?_, ?_, ?_⟩
  · rw [hkeys]
    exact h.nodup
  · intro k e' he' hk
    obtain ⟨e₀, h₀, hse⟩ := strip_eq_some (hstrip k) he'
    obtain ⟨q, hq, hq0⟩ := h.imp_entity k e₀ h₀ hk
    have himpeq : (stripLinked e').importance = (stripLinked e₀).importance :=
      congrArg Entry.importance hse
    exact ⟨q, himpeq.trans hq, hq0⟩
  · exact linked_some_foldl _ st h.linked_entity
  · intro a b hb
    rw [show (pairsOf (entitiesOf st.correlation_map)).foldl linkStep st =
        find_entity_links st from rfl] at *
    rw [find_entity_links_linked_iff h] at hb ⊢
    obtain ⟨h1, h2, h3, h4, h5, h6⟩ := hb
    exact ⟨fun hh => h1 hh.symm, h3, h2, h5, h4, commonSources_swap_iff.mp h6⟩
  · intro a b hb
    rw [show (pairsOf (entitiesOf st.correlation_map)).foldl linkStep st =
        find_entity_links st from rfl] at *
    rw [find_entity_links_linked_iff h] at hb
    obtain ⟨h1, h2, h3, h4, h5, h6⟩ := hb
    obtain ⟨s, hs1, hs2⟩ := commonSources_ne_nil_iff.mp h6
    refine ⟨h1, h2, h3, ?_, s, ?_, ?_⟩
    · rw [alookup_isSome_iff_mem, hkeys]
      rwa [alookup_isSome_iff_mem] at h5
    · rwa [hsrc]
    · rwa [hsrc]

/-! ## Scoring pass -/

theorem calc_cons_rd (k₀ : String) (e₀ : Entry) (t : List (String × Entry))
    (hr : k₀ = "raw_data") :
    calculate_entity_scores ((k₀, e₀) :: t) = (k₀, e₀) :: calculate_entity_scores t := by
  unfold calculate_entity_scores
  simp [hr]

theorem calc_cons_entity (k₀ : String) (e₀ : Entry) (t : List (String × Entry))
    (hr : ¬ k₀ = "raw_data") :
    calculate_entity_scores ((k₀, e₀) :: t) =
      (k₀, scoreEntry e₀) :: calculate_entity_scores t := by
  unfold calculate_entity_scores
  simp [hr]

theorem alookup_calc (m : List (String × Entry)) (k : String) :
    alookup (calculate_entity_scores m) k =
      (alookup m k).map (fun e => if k = "raw_data" then e else scoreEntry e) := by
  induction m with
  | nil => rfl
  | cons p t ih =>
    obtain ⟨k₀, e₀⟩ := p
    by_cases hr : k₀ = "raw_data"
    · rw [calc_cons_rd k₀ e₀ t hr]
      by_cases hk : k₀ = k
      · subst hk
        simp only [alookup, if_true]
        rw [Option.map_some', if_pos hr]
      · simp only [alookup, if_neg hk]
        exact ih
    · rw [calc_cons_entity k₀ e₀ t hr]
      by_cases hk : k₀ = k
      · subst hk
        simp only [alookup, if_true]
        rw [Option.map_some', if_neg hr]
      · simp only [alookup, if_neg hk]
        exact ih

theorem keys_calc (m : List (String × Entry)) :
    (calculate_entity_scores m).map Prod.fst = m.map Prod.fst := by
  induction m with
  | nil => rfl
  | cons p t ih =>
    obtain ⟨k₀, e₀⟩ := p
    by_cases hr : k₀ = "raw_data"
    · rw [calc_cons_rd k₀ e₀ t hr]
      simp [ih]
    · rw [calc_cons_entity k₀ e₀ t hr]
      simp [ih]

theorem scoreEntry_sources (e : Entry) : (scoreEntry e).sources = e.sources := rfl

theorem scoreEntry_linked (e : Entry) : (scoreEntry e).linked_entities = e.linked_entities := rfl

theorem scoreEntry_importance (e : Entry) : (scoreEntry e).importance = e.importance := rfl

theorem scoreEntry_type (e : Entry) : (scoreEntry e).type = e.type := rfl

theorem sourcesOf_calc (m : List (String × Entry)) (k : String) :
    sourcesOf (calculate_entity_scores m) k = sourcesOf m k := by
  unfold sourcesOf
  rw [alookup_calc]
  cases alookup m k with
  | none => rfl
  | some e =>
    simp only [Option.map_some', Option.getD_some]
    by_cases hk : k = "raw_data"
    · rw [if_pos hk]
    · rw [if_neg hk]
      rfl

theorem linkedOf_calc (m : List (String × Entry)) (k : String) :
    linkedOf (calculate_entity_scores m) k = linkedOf m k := by
  unfold linkedOf
  rw [alookup_calc]
  cases alookup m k with
  | none => rfl
  | some e =>
    simp only [Option.map_some']
    by_cases hk : k = "raw_data"
    · rw [if_pos hk]
    · rw [if_neg hk]
      rfl

theorem typeOf_calc (m : List (String × Entry)) (k : String) :
    typeOf (calculate_entity_scores m) k = typeOf m k := by
  unfold typeOf
  rw [alookup_calc]
  cases alookup m k with
  | none => rfl
  | some e =>
    simp only [Option.map_some']
    by_cases hk : k = "raw_data"
    · rw [if_pos hk]
    · rw [if_neg hk]
      rfl

theorem WFmap_calc {m : List (String × Entry)} (h : WFmap m) :
    WFmap (calculate_entity_scores m) := by
  refine h.congr ?_ ?_ ?_ (linkedOf_calc m) ?_ ?_
  · rw [keys_calc]
    exact h.nodup
  · intro k e' he' hk
    rw [alookup_calc] at he'
    rcases hm : alookup m k with _ | e₀
    · rw [hm] at he'
      cases he'
    · rw [hm] at he'
      simp only [Option.map_some', Option.some.injEq, if_neg hk] at he'
      obtain ⟨q, hq, hq0⟩ := h.imp_entity k e₀ hm hk
      exact ⟨q, by rw [← he', scoreEntry_importance, hq], hq0⟩
  · intro k e' he' hk
    rw [alookup_calc] at he'
    rcases hm : alookup m k with _ | e₀
    · rw [hm] at he'
      cases he'
    · rw [hm] at he'
      simp only [Option.map_some', Option.some.injEq, if_neg hk] at he'
      obtain ⟨l, hl⟩ := h.linked_entity k e₀ hm hk
      exact ⟨l, by rw [← he', scoreEntry_linked, hl]⟩
  · intro a s hs
    rwa [sourcesOf_calc]
  · intro b hb
    rw [alookup_isSome_iff_mem, keys_calc]
    rwa [alookup_isSome_iff_mem] at hb

/-! ## All reachable states are well-formed -/

theorem WFmap_init : WFmap initEngine.correlation_map := by
  refine ⟨List.nodup_nil, ?_, ?_, ?_, ?_⟩ <;> intro a b h <;> cases h

theorem correlate_state (st : EngineState) :
    (correlate st).1 = ⟨calculate_entity_scores (find_entity_links st).correlation_map,
        (find_entity_links st).relationships⟩ := rfl

theorem WFmap_correlate {st : EngineState} (h : WFmap st.correlation_map) :
    WFmap (correlate st).1.correlation_map := by
  rw [correlate_state]
  exact WFmap_calc (WFmap_find_entity_links h)

theorem WFmap_reachable {st : EngineState} (h : Reachable st) :
    WFmap st.correlation_map := by
  induction h with
  | init => exact WFmap_init
  | raw raw _ ih => exact WFmap_add_raw_data raw ih
  | parsed groups _ ih => exact WFmap_add_parsed_entities groups ih
  | corr _ ih => exact WFmap_correlate ih

/-! ## Result-compiler projections -/

theorem compileResult_total (m : List (String × Entry)) (r : List Rel) :
    (compileResult m r).total_entities = (entitiesOf m).length := rfl

theorem compileResult_rels (m : List (String × Entry)) (r : List Rel) :
    (compileResult m r).relationships = r := rfl

/-! ## Claim C6 — normalization -/

theorem normalizeKey_idem (s : String) :
    normalizeKey (normalizeKey s) = normalizeKey s := by
  unfold normalizeKey
  exact congrArg String.mk (normalize_list_idem s.data)

/-- **C6** — `_normalize_key` is `value.lower().strip()` and nothing else:
it is idempotent, and two values that agree after lowercasing, or differ
only by leading/trailing whitespace, produce the same identity key (hence
select the same `correlation_map` entry). -/
theorem C6_normalization :
    (∀ s : String, normalizeKey (normalizeKey s) = normalizeKey s) ∧
    (∀ v w : String, v.data.map lowerChar = w.data.map lowerChar →
      normalizeKey v = normalizeKey w) ∧
    (∀ (v : String) (pre post : List Char), (∀ c ∈ pre, isSpace c = true) →
      (∀ c ∈ post, isSpace c = true) →
      normalizeKey ⟨pre ++ (v.data ++ post)⟩ = normalizeKey v) := by
  refine ⟨normalizeKey_idem, ?_, ?_⟩
  · intro v w h
    unfold normalizeKey
    rw [h]
  · intro v pre post hpre hpost
    unfold normalizeKey
    refine congrArg String.mk ?_
    show pyStrip ((pre ++ (v.data ++ post)).map lowerChar) = pyStrip (v.data.map lowerChar)
    rw [List.map_append, List.map_append]
    rw [map_lowerChar_eq_self_of_space hpre, map_lowerChar_eq_self_of_space hpost]
    rw [pyStrip_space_append hpre]
    exact pyStrip_append_space hpost

/-- **C6** witness: the theorem at concrete inputs. -/
theorem C6_normalization_witness :
    normalizeKey (normalizeKey "  Admin@Example.COM  ") = normalizeKey "  Admin@Example.COM  " ∧
    normalizeKey ⟨[' '] ++ ("Ab".data ++ [' '])⟩ = normalizeKey "Ab" :=
  ⟨C6_normalization.1 "  Admin@Example.COM  ",
   C6_normalization.2.2 "Ab" [' '] [' ']
     (by intro c hc; rw [List.mem_singleton] at hc; subst hc; rfl)
     (by intro c hc; rw [List.mem_singleton] at hc; subst hc; rfl)⟩

/-! ## Claim C9 — lookup of an unseen value -/

/-- **C9** — `get_entity_details` on a value whose normalized key was never
ingested returns `none`, and only then; it is a total function built on
`dict.get`, which neither raises nor invokes the `defaultdict` factory, so
the engine state is untouched (the model returns no state at all). -/
theorem C9_lookup_unseen (st : EngineState) (v : String) :
    get_entity_details st v = none ↔
      normalizeKey v ∉ st.correlation_map.map Prod.fst := by
  unfold get_entity_details
  constructor
  · intro h hmem
    have hs := alookup_isSome_iff_mem.mpr hmem
    rw [h] at hs
    cases hs
  · exact alookup_eq_none_of_not_mem

/-! ## Claim C10 — whitespace-only observations -/

theorem normalizeKey_ws {v : String} (h : ∀ c ∈ v.data, isSpace c = true) :
    normalizeKey v = "" := by
  unfold normalizeKey
  rw [map_lowerChar_eq_self_of_space h, pyStrip_eq_nil_of_space h]

theorem ingestObs_ws {st : EngineState} (src : String) {o : Obs}
    (hWF : WFmap st.correlation_map)
    (ho : (∃ t, o.type? = some t) ∧ ∃ v, o.value? = some v ∧ ∀ c ∈ v.data, isSpace c = true)
    (hkeys : st.correlation_map.map Prod.fst = [] ∨ st.correlation_map.map Prod.fst = [""]) :
    (ingestObs st src o).2 = false ∧
      (ingestObs st src o).1.correlation_map.map Prod.fst = [""] := by
  obtain ⟨⟨t, ht⟩, v, hv, hws⟩ := ho
  have hkey : normalizeKey v = "" := normalizeKey_ws hws
  have hrd : ¬ ("" : String) = "raw_data" := by decide
  have himp : ∃ q, (preEntry st.correlation_map (normalizeKey v) t src).importance = some q := by
    rw [preEntry_importance, alookup_getOrCreate_same, Option.getD_some]
    rcases hm : alookup st.correlation_map (normalizeKey v) with _ | e
    · exact ⟨0, rfl⟩
    · obtain ⟨q, hq, -⟩ := hWF.imp_entity _ e hm (by rw [hkey]; exact hrd)
      exact ⟨q, hq⟩
  obtain ⟨q, hq⟩ := himp
  rw [ingestObs_eq_ok st src o hv ht hq]
  refine ⟨rfl, ?_⟩
  show (aupdate (getOrCreate st.correlation_map (normalizeKey v)) (normalizeKey v)
      _).map Prod.fst = [""]
  rw [keys_aupdate, keys_getOrCreate, hkey]
  rcases hkeys with hk | hk
  · have : alookup st.correlation_map "" = none :=
      alookup_eq_none_of_not_mem (by rw [hk]; intro h; cases h)
    rw [this]
    simp [hk]
  · have : ("" : String) ∈ st.correlation_map.map Prod.fst := by
      rw [hk]
      exact List.mem_singleton.mpr rfl
    rw [if_pos (alookup_isSome_iff_mem.mpr this)]
    exact hk

theorem ingestObsList_ws {st : EngineState} (src : String) {l : List Obs}
    (hWF : WFmap st.correlation_map)
    (hws : ∀ o ∈ l, (∃ t, o.type? = some t) ∧
      ∃ v, o.value? = some v ∧ ∀ c ∈ v.data, isSpace c = true)
    (hkeys : st.correlation_map.map Prod.fst = [] ∨ st.correlation_map.map Prod.fst = [""]) :
    (ingestObsList st src l).2 = false ∧
      ((ingestObsList st src l).1.correlation_map.map Prod.fst = [] ∨
        (ingestObsList st src l).1.correlation_map.map Prod.fst = [""]) ∧
      (¬ l = [] → (ingestObsList st src l).1.correlation_map.map Prod.fst = [""]) := by
  induction l generalizing st with
  | nil => exact ⟨rfl, hkeys, fun h => absurd rfl h⟩
  | cons o tl ih =>
    obtain ⟨herr, hk1⟩ := ingestObs_ws src hWF (hws o (List.mem_cons_self o tl)) hkeys
    rcases hstep : ingestObs st src o with ⟨st1, err⟩
    rw [hstep] at herr hk1
    subst herr
    have hWF1 : WFmap st1.correlation_map := by
      have := WFmap_ingestObs src o hWF
      rwa [hstep] at this
    have hrest := ih hWF1 (fun o' ho' => hws o' (List.mem_cons_of_mem o ho')) (Or.inr hk1)
    have hred : ingestObsList st src (o :: tl) = ingestObsList st1 src tl := by
      rw [ingestObsList, hstep]
    rw [hred]
    refine ⟨hrest.1, hrest.2.1, fun _ => ?_⟩
    rcases tl with _ | ⟨o', tl'⟩
    · exact hk1
    · exact hrest.2.2 (by intro hh; cases hh)

theorem keys_monotone_ingestObs (st : EngineState) (src : String) (o : Obs) {k : String}
    (hk : k ∈ st.correlation_map.map Prod.fst) :
    k ∈ (ingestObs st src o).1.correlation_map.map Prod.fst := by
  rcases hv : o.value? with _ | v
  · simpa [ingestObs, hv] using hk
  rcases ht : o.type? with _ | t
  · simpa [ingestObs, hv, ht] using hk
  have hkg : k ∈ (getOrCreate st.correlation_map (normalizeKey v)).map Prod.fst := by
    rw [keys_getOrCreate]
    by_cases hs : (alookup st.correlation_map (normalizeKey v)).isSome
    · rwa [if_pos hs]
    · rw [if_neg hs]
      exact List.mem_append_left _ hk
  rcases himp : (preEntry st.correlation_map (normalizeKey v) t src).importance with _ | imp
  · rw [ingestObs_eq_err st src o hv ht himp]
    show k ∈ (aupdate _ _ _).map Prod.fst
    rwa [keys_aupdate]
  · rw [ingestObs_eq_ok st src o hv ht himp]
    show k ∈ (aupdate _ _ _).map Prod.fst
    rwa [keys_aupdate]

theorem keys_monotone_ingestObsList (src : String) (l : List Obs) {st : EngineState}
    {k : String} (hk : k ∈ st.correlation_map.map Prod.fst) :
    k ∈ (ingestObsList st src l).1.correlation_map.map Prod.fst := by
  induction l generalizing st with
  | nil => exact hk
  | cons o tl ih =>
    have h1 := keys_monotone_ingestObs st src o hk
    rcases hstep : ingestObs st src o with ⟨st1, err⟩
    rw [hstep] at h1
    cases err
    · rw [show ingestObsList st src (o :: tl) = ingestObsList st1 src tl from by
        rw [ingestObsList, hstep]]
      exact ih h1
    · rw [show ingestObsList st src (o :: tl) = (st1, true) from by
        rw [ingestObsList, hstep]]
      exact h1

theorem keys_monotone_add_parsed (groups : List (String × List Obs)) {st : EngineState}
    {k : String} (hk : k ∈ st.correlation_map.map Prod.fst) :
    k ∈ (add_parsed_entities st groups).1.correlation_map.map Prod.fst := by
  induction groups generalizing st with
  | nil => exact hk
  | cons g tl ih =>
    obtain ⟨src, l⟩ := g
    have h1 := keys_monotone_ingestObsList src l hk
    rcases hstep : ingestObsList st src l with ⟨st1, err⟩
    rw [hstep] at h1
    cases err
    · rw [show add_parsed_entities st ((src, l) :: tl) = add_parsed_entities st1 tl from by
        rw [add_parsed_entities, hstep]]
      exact ih h1
    · rw [show add_parsed_entities st ((src, l) :: tl) = (st1, true) from by
        rw [add_parsed_entities, hstep]]
      exact h1

theorem add_parsed_entities_ws {st : EngineState} {groups : List (String × List Obs)}
    (hWF : WFmap st.correlation_map)
    (hws : ∀ g ∈ groups, ∀ o ∈ g.2, (∃ t, o.type? = some t) ∧
      ∃ v, o.value? = some v ∧ ∀ c ∈ v.data, isSpace c = true)
    (hkeys : st.correlation_map.map Prod.fst = [] ∨ st.correlation_map.map Prod.fst = [""]) :
    (add_parsed_entities st groups).2 = false ∧
      ((add_parsed_entities st groups).1.correlation_map.map Prod.fst = [] ∨
        (add_parsed_entities st groups).1.correlation_map.map Prod.fst = [""]) ∧
      ((∃ g ∈ groups, ¬ g.2 = []) →
        (add_parsed_entities st groups).1.correlation_map.map Prod.fst = [""]) := by
  induction groups generalizing st with
  | nil =>
    refine ⟨rfl, hkeys, ?_⟩
    rintro ⟨g, hg, -⟩
    cases hg
  | cons g tl ih =>
    obtain ⟨src, l⟩ := g
    obtain ⟨herr, hk1, hne1⟩ :=
      ingestObsList_ws src hWF (hws _ (List.mem_cons_self _ tl)) hkeys
    rcases hstep : ingestObsList st src l with ⟨st1, err⟩
    rw [hstep] at herr hk1 hne1
    subst herr
    have hWF1 : WFmap st1.correlation_map := by
      have := WFmap_ingestObsList src l hWF
      rwa [hstep] at this
    have hred : add_parsed_entities st ((src, l) :: tl) = add_parsed_entities st1 tl := by
      rw [add_parsed_entities, hstep]
    have hrest := ih hWF1 (fun g' hg' => hws g' (List.mem_cons_of_mem _ hg')) hk1
    rw [hred]
    refine ⟨hrest.1, hrest.2.1, ?_⟩
    rintro ⟨g', hg', hgne⟩
    rcases List.mem_cons.mp hg' with rfl | hg''
    · -- nonempty obs list in the head group: keys are [""] already and stay so
      have hkk : st1.correlation_map.map Prod.fst = [""] := hne1 hgne
      rcases hrest.2.1 with hzero | hone
      · -- keys can only grow along ingestion; [""] cannot shrink to []
        exfalso
        have hsub : ("" : String) ∈ st1.correlation_map.map Prod.fst := by
          rw [hkk]
          exact List.mem_singleton.mpr rfl
        have : ("" : String) ∈ (add_parsed_entities st1 tl).1.correlation_map.map Prod.fst :=
          keys_monotone_add_parsed tl hsub
        rw [hzero] at this
        cases this
      · exact hone
    · exact hrest.2.2 ⟨g', hg'', hgne⟩

theorem keys_correlate (st : EngineState) :
    (correlate st).1.correlation_map.map Prod.fst = st.correlation_map.map Prod.fst := by
  rw [correlate_state]
  show (calculate_entity_scores (find_entity_links st).correlation_map).map Prod.fst = _
  rw [keys_calc]
  exact foldl_linkStep_keys _ st

/-- **C10** — observations whose value is empty or whitespace-only are
accepted, not rejected: each normalizes to the identity key `""`, all of
them (across all sources) land in the single `correlation_map` entry keyed
`""`, and they contribute exactly one entity to `correlate()`'s
`total_entities`. -/
theorem C10_whitespace_only (groups : List (String × List Obs))
    (hws : ∀ g ∈ groups, ∀ o ∈ g.2, (∃ t, o.type? = some t) ∧
      ∃ v, o.value? = some v ∧ ∀ c ∈ v.data, isSpace c = true)
    (hne : ∃ g ∈ groups, ¬ g.2 = []) :
    (∀ v : String, (∀ c ∈ v.data, isSpace c = true) → normalizeKey v = "") ∧
    (add_parsed_entities initEngine groups).2 = false ∧
    (add_parsed_entities initEngine groups).1.correlation_map.map Prod.fst = [""] ∧
    (correlate (add_parsed_entities initEngine groups).1).2.total_entities = 1 := by
  obtain ⟨herr, -, hone⟩ := add_parsed_entities_ws WFmap_init hws (Or.inl rfl)
  have hkeys := hone hne
  refine ⟨fun v hv => normalizeKey_ws hv, herr, hkeys, ?_⟩
  show (compileResult (correlate (add_parsed_entities initEngine groups).1).1.correlation_map
      _).total_entities = 1
  rw [compileResult_total]
  unfold entitiesOf
  rw [keys_correlate, hkeys]
  rfl

/-- **C10** witness: three whitespace-only observations over two sources. -/
theorem C10_whitespace_only_witness :
    (add_parsed_entities initEngine
        [("s1", [⟨some (some "EMAIL"), some "  ", none⟩,
                 ⟨some (some "HOST"), some "", none⟩]),
         ("s2", [⟨some (some "URL"), some "\t ", none⟩])]).2 = false ∧
    (correlate (add_parsed_entities initEngine
        [("s1", [⟨some (some "EMAIL"), some "  ", none⟩,
                 ⟨some (some "HOST"), some "", none⟩]),
         ("s2", [⟨some (some "URL"), some "\t ", none⟩])]).1).2.total_entities = 1 := by
  have h := C10_whitespace_only
    [("s1", [⟨some (some "EMAIL"), some "  ", none⟩,
             ⟨some (some "HOST"), some "", none⟩]),
     ("s2", [⟨some (some "URL"), some "\t ", none⟩])]
    (by
      intro g hg o ho
      rcases List.mem_cons.mp hg with rfl | hg'
      · rcases List.mem_cons.mp ho with rfl | ho'
        · exact ⟨⟨_, rfl⟩, "  ", rfl, by decide⟩
        · rcases List.mem_cons.mp ho' with rfl | ho''
          · exact ⟨⟨_, rfl⟩, "", rfl, by decide⟩
          · cases ho''
      · rcases List.mem_cons.mp hg' with rfl | hg''
        · rcases List.mem_cons.mp ho with rfl | ho'
          · exact ⟨⟨_, rfl⟩, "\t ", rfl, by decide⟩
          · cases ho'
        · cases hg'')
    ⟨_, List.mem_cons_self _ _, by intro hh; cases hh⟩
  exact ⟨h.2.1, h.2.2.2⟩

/-! ## Claim C3 — importance on ingestion -/

theorem add_parsed_singleton (st : EngineState) (src : String) (l : List Obs) :
    (add_parsed_entities st [(src, l)]).1 = (ingestObsList st src l).1 := by
  rcases h : ingestObsList st src l with ⟨st', err⟩
  cases err <;> simp [add_parsed_entities, h]

theorem ingestObsList_singleton (st : EngineState) (src : String) (o : Obs) :
    (ingestObsList st src [o]).1 = (ingestObs st src o).1 := by
  rcases h : ingestObs st src o with ⟨st', err⟩
  cases err <;> simp [ingestObsList, h]

/-- **C3 counterexample** — ingesting a `CTF_FLAG` observation that carries
no importance hint leaves `importance = 0.5` (the flat `entity.get(...,
0.5)` fallback), not the static-table value 1.0: `add_parsed_entities`
performs no table lookup of its own. -/
theorem C3_counterexample :
    importanceOf (add_parsed_entities initEngine
        [("s", [⟨some (some "CTF_FLAG"), some "flag{x}", none⟩])]).1.correlation_map
      "flag{x}" = some (1/2) ∧
    ¬ (some ((1:ℚ)/2) = some (1:ℚ)) := by
  have hkey : normalizeKey "flag{x}" = "flag{x}" := by decide
  constructor
  · have hpre : (preEntry initEngine.correlation_map (normalizeKey "flag{x}")
        (some "CTF_FLAG") "s").importance = some 0 := by
      rw [preEntry_importance, alookup_getOrCreate_same]
      rfl
    rw [add_parsed_singleton, ingestObsList_singleton,
      ingestObs_eq_ok initEngine "s" ⟨some (some "CTF_FLAG"), some "flag{x}", none⟩
        rfl rfl hpre]
    unfold importanceOf setMap
    show ((alookup (aupdate (getOrCreate initEngine.correlation_map (normalizeKey "flag{x}"))
        (normalizeKey "flag{x}") _) "flag{x}").bind Entry.importance) = _
    rw [hkey, alookup_aupdate_same (alookup_getOrCreate_same _ _)]
    show some (max (0:ℚ) ((1:ℚ)/2)) = some ((1:ℚ)/2)
    rw [max_eq_right (by norm_num : (0:ℚ) ≤ 1/2)]
  · intro h
    rw [Option.some.injEq] at h
    norm_num at h

/-- **C3 amended** — on ingesting a well-shaped observation whose key is not
the reserved `"raw_data"` slot, the key's importance becomes
`max(previous, hint)` where the hint defaults to the flat 0.5 fallback; the
engine consults no static type table (the table lives only in
`AIParser.score_entity_importance`, outside the engine). -/
theorem C3_amended (st : EngineState) (h : Reachable st) (src : String) (o : Obs)
    {v : String} {t : Option String} (hv : o.value? = some v) (ht : o.type? = some t)
    (hkey : ¬ normalizeKey v = "raw_data") :
    (ingestObs st src o).2 = false ∧
    importanceOf (ingestObs st src o).1.correlation_map (normalizeKey v) =
      some (max ((importanceOf st.correlation_map (normalizeKey v)).getD 0)
        ((o.importance_score?).getD (1/2))) := by
  have hWF := WFmap_reachable h
  have hpre : (preEntry st.correlation_map (normalizeKey v) t src).importance =
      some ((importanceOf st.correlation_map (normalizeKey v)).getD 0) := by
    rw [preEntry_importance, alookup_getOrCreate_same, Option.getD_some]
    unfold importanceOf
    rcases hm : alookup st.correlation_map (normalizeKey v) with _ | e
    · rfl
    · obtain ⟨q, hq, -⟩ := hWF.imp_entity _ e hm hkey
      show e.importance = some ((e.importance).getD 0)
      rw [hq]
      rfl
  rw [ingestObs_eq_ok st src o hv ht hpre]
  refine ⟨rfl, ?_⟩
  unfold importanceOf
  show (alookup (aupdate (getOrCreate st.correlation_map (normalizeKey v))
      (normalizeKey v) _) (normalizeKey v)).bind Entry.importance = _
  rw [alookup_aupdate_same (alookup_getOrCreate_same st.correlation_map (normalizeKey v))]
  rfl

/-- **C3 amended** witness: a fresh engine and a hintless `CTF_FLAG`
observation; the resulting importance is `max 0 0.5 = 0.5`. -/
theorem C3_amended_witness :
    (ingestObs initEngine "s" ⟨some (some "CTF_FLAG"), some "flag{x}", none⟩).2 = false ∧
    importanceOf (ingestObs initEngine "s"
        ⟨some (some "CTF_FLAG"), some "flag{x}", none⟩).1.correlation_map
      (normalizeKey "flag{x}") =
      some (max ((importanceOf initEngine.correlation_map (normalizeKey "flag{x}")).getD 0)
        (((⟨some (some "CTF_FLAG"), some "flag{x}", none⟩ : Obs).importance_score?).getD (1/2))) :=
  C3_amended initEngine Reachable.init "s" ⟨some (some "CTF_FLAG"), some "flag{x}", none⟩
    rfl rfl (by decide)

/-! ## Claim C4 — malformed observations -/

theorem ingestObs_bad (st : EngineState) (src : String) {o : Obs}
    (h : o.value? = none ∨ o.type? = none) : ingestObs st src o = (st, true) := by
  rcases h with h | h
  · simp [ingestObs, h]
  · rcases hv : o.value? with _ | v
    · simp [ingestObs, hv]
    · simp [ingestObs, hv, h]

/-- **C4 counterexample** — a record missing `type` aborts the whole batch:
the later valid record `"g"` is never ingested (the map stays empty). -/
theorem C4_counterexample :
    (add_parsed_entities initEngine
        [("s", [⟨none, some "b", none⟩, ⟨some (some "EMAIL"), some "g", none⟩])]).2 = true ∧
    alookup (add_parsed_entities initEngine
        [("s", [⟨none, some "b", none⟩,
                ⟨some (some "EMAIL"), some "g", none⟩])]).1.correlation_map "g" = none := by
  constructor
  · decide
  · decide

/-- **C4 amended** — a record missing `value` or `type` raises `KeyError`
before touching the map, so state ingested before it is exactly the state
after the valid prefix alone (uncorrupted) — but the exception aborts the
batch: the records after the offending one are not processed. -/
theorem C4_amended (st : EngineState) (src : String) (pre post : List Obs) (bad : Obs)
    (hpre : (ingestObsList st src pre).2 = false)
    (hbad : bad.value? = none ∨ bad.type? = none) :
    ingestObsList st src (pre ++ bad :: post) = ((ingestObsList st src pre).1, true) := by
  induction pre generalizing st with
  | nil =>
    show ingestObsList st src (bad :: post) = (st, true)
    rw [ingestObsList, ingestObs_bad st src hbad]
  | cons o pre' ih =>
    rcases hstep : ingestObs st src o with ⟨st1, err⟩
    cases err
    · have hred : ingestObsList st src (o :: pre') = ingestObsList st1 src pre' := by
        rw [ingestObsList, hstep]
      rw [hred] at hpre
      have hred2 : ingestObsList st src ((o :: pre') ++ bad :: post) =
          ingestObsList st1 src (pre' ++ bad :: post) := by
        rw [List.cons_append, ingestObsList, hstep]
      rw [hred2, ih st1 hpre, hred]
    · rw [ingestObsList, hstep] at hpre
      cases hpre

/-- **C4 amended** witness at a concrete batch. -/
theorem C4_amended_witness :
    ingestObsList initEngine "s"
        ([⟨some (some "EMAIL"), some "g", none⟩] ++
          (⟨none, some "b", none⟩ : Obs) :: [⟨some (some "URL"), some "u", none⟩]) =
      ((ingestObsList initEngine "s" [⟨some (some "EMAIL"), some "g", none⟩]).1, true) :=
  C4_amended initEngine "s" [⟨some (some "EMAIL"), some "g", none⟩]
    [⟨some (some "URL"), some "u", none⟩] ⟨none, some "b", none⟩ (by decide) (Or.inr rfl)

/-! ## Claim C8 — entity type is first-writer-wins -/

theorem alookup_ingestObs_ne (st : EngineState) (src : String) (o : Obs) {v : String}
    {t : Option String} {k : String} (hv : o.value? = some v) (ht : o.type? = some t)
    (hkk : ¬ k = normalizeKey v) :
    alookup (ingestObs st src o).1.correlation_map k = alookup st.correlation_map k := by
  rcases himp : (preEntry st.correlation_map (normalizeKey v) t src).importance with _ | imp
  · rw [ingestObs_eq_err st src o hv ht himp]
    show alookup (aupdate _ _ _) k = _
    rw [alookup_aupdate_ne _ hkk, alookup_getOrCreate_ne _ hkk]
  · rw [ingestObs_eq_ok st src o hv ht himp]
    show alookup (aupdate _ _ _) k = _
    rw [alookup_aupdate_ne _ hkk, alookup_getOrCreate_ne _ hkk]

/-- The stored `type` at the touched key after one ingestion: written only
if it was `None` (line 78–79 of the source), on the error path too. -/
theorem type_after_ingest (st : EngineState) (src : String) (o : Obs) {v : String}
    {t : Option String} (hv : o.value? = some v) (ht : o.type? = some t) :
    typeOf (ingestObs st src o).1.correlation_map (normalizeKey v) =
      (if ((alookup st.correlation_map (normalizeKey v)).getD defaultEntry).type = none
       then t
       else ((alookup st.correlation_map (normalizeKey v)).getD defaultEntry).type) := by
  have hT := preEntry_type st.correlation_map (normalizeKey v) t src
  rw [alookup_getOrCreate_same, Option.getD_some] at hT
  rcases himp : (preEntry st.correlation_map (normalizeKey v) t src).importance with _ | imp
  · rw [ingestObs_eq_err st src o hv ht himp]
    unfold typeOf
    show (alookup (aupdate _ _ _) _).bind Entry.type = _
    rw [alookup_aupdate_same (alookup_getOrCreate_same _ _)]
    exact hT
  · rw [ingestObs_eq_ok st src o hv ht himp]
    unfold typeOf
    show (alookup (aupdate _ _ _) _).bind Entry.type = _
    rw [alookup_aupdate_same (alookup_getOrCreate_same _ _)]
    exact hT

theorem typeOf_stable_ingestObs (st : EngineState) (src : String) (o : Obs) (k : String)
    {t₀ : String} (h : typeOf st.correlation_map k = some t₀) :
    typeOf (ingestObs st src o).1.correlation_map k = some t₀ := by
  rcases hv : o.value? with _ | v
  · simpa [ingestObs, hv] using h
  rcases ht : o.type? with _ | t
  · simpa [ingestObs, hv, ht] using h
  by_cases hkk : k = normalizeKey v
  · subst hkk
    rw [type_after_ingest st src o hv ht]
    unfold typeOf at h
    rcases hm : alookup st.correlation_map (normalizeKey v) with _ | e
    · rw [hm] at h
      cases h
    · rw [hm] at h
      have he : e.type = some t₀ := h
      simp only [Option.getD_some]
      rw [he, if_neg (by intro hh; cases hh)]
  · unfold typeOf
    rw [alookup_ingestObs_ne st src o hv ht hkk]
    exact h

theorem typeOf_stable_ingestObsList (src : String) (l : List Obs) {st : EngineState}
    {k : String} {t₀ : String} (h : typeOf st.correlation_map k = some t₀) :
    typeOf (ingestObsList st src l).1.correlation_map k = some t₀ := by
  induction l generalizing st with
  | nil => exact h
  | cons o tl ih =>
    have h1 := typeOf_stable_ingestObs st src o k h
    rcases hstep : ingestObs st src o with ⟨st1, err⟩
    rw [hstep] at h1
    cases err
    · rw [show ingestObsList st src (o :: tl) = ingestObsList st1 src tl from by
        rw [ingestObsList, hstep]]
      exact ih h1
    · rw [show ingestObsList st src (o :: tl) = (st1, true) from by
        rw [ingestObsList, hstep]]
      exact h1

theorem typeOf_stable_add_parsed (groups : List (String × List Obs)) {st : EngineState}
    {k : String} {t₀ : String} (h : typeOf st.correlation_map k = some t₀) :
    typeOf (add_parsed_entities st groups).1.correlation_map k = some t₀ := by
  induction groups generalizing st with
  | nil => exact h
  | cons g tl ih =>
    obtain ⟨src, l⟩ := g
    have h1 := typeOf_stable_ingestObsList src l h
    rcases hstep : ingestObsList st src l with ⟨st1, err⟩
    rw [hstep] at h1
    cases err
    · rw [show add_parsed_entities st ((src, l) :: tl) = add_parsed_entities st1 tl from by
        rw [add_parsed_entities, hstep]]
      exact ih h1
    · rw [show add_parsed_entities st ((src, l) :: tl) = (st1, true) from by
        rw [add_parsed_entities, hstep]]
      exact h1

/-- **C8 counterexample** — the check on line 78 is `is None`, not
non-empty: an observation carrying the empty-string type claims the key,
and the later `"HOST"` observation does not overwrite it.  The claim's
"first non-empty type" would require `some "HOST"`. -/
theorem C8_counterexample :
    typeOf (add_parsed_entities initEngine
        [("s", [⟨some (some ""), some "x", none⟩,
                ⟨some (some "HOST"), some "x", none⟩])]).1.correlation_map "x" = some "" ∧
    ¬ (some ("" : String) = some "HOST") := by
  constructor
  · decide
  · decide

/-- **C8 amended** — the recorded type is first-*non-None*-wins: once the
stored type is a string (the empty string included), no later observation
— across whole `add_parsed_entities` batches — overwrites it; and an
observation reaching a key whose stored type is `None` (or absent) writes
its own type value, whatever it is. -/
theorem C8_amended :
    (∀ (st : EngineState) (groups : List (String × List Obs)) (k : String) (t₀ : String),
      typeOf st.correlation_map k = some t₀ →
      typeOf (add_parsed_entities st groups).1.correlation_map k = some t₀) ∧
    (∀ (st : EngineState) (src : String) (o : Obs) (v : String) (tv : Option String),
      o.value? = some v → o.type? = some tv →
      typeOf st.correlation_map (normalizeKey v) = none →
      typeOf (ingestObs st src o).1.correlation_map (normalizeKey v) = tv) := by
  constructor
  · intro st groups k t₀ h
    exact typeOf_stable_add_parsed groups h
  · intro st src o v tv hv ht h
    rw [type_after_ingest st src o hv ht]
    unfold typeOf at h
    rcases hm : alookup st.correlation_map (normalizeKey v) with _ | e
    · rfl
    · rw [hm] at h
      have he : e.type = none := h
      simp only [Option.getD_some]
      rw [if_pos he]

/-- **C8 amended** witness at concrete inputs. -/
theorem C8_amended_witness :
    typeOf (add_parsed_entities
        (add_parsed_entities initEngine [("s", [⟨some (some "EMAIL"), some "x", none⟩])]).1
        [("s2", [⟨some (some "HOST"), some "x", none⟩])]).1.correlation_map "x" =
      some "EMAIL" ∧
    typeOf (ingestObs initEngine "s"
        ⟨some (some "EMAIL"), some "x", none⟩).1.correlation_map (normalizeKey "x") =
      some "EMAIL" :=
  ⟨C8_amended.1 (add_parsed_entities initEngine
      [("s", [⟨some (some "EMAIL"), some "x", none⟩])]).1
      [("s2", [⟨some (some "HOST"), some "x", none⟩])] "x" "EMAIL" (by decide),
   C8_amended.2 initEngine "s" ⟨some (some "EMAIL"), some "x", none⟩ "x" (some "EMAIL")
      rfl rfl (by decide)⟩

/-! ## Claim C2 — the `"raw_data"` namespace collision -/

/-- **C2 counterexample** — after `add_raw_data`, a lookup by the identity
key `"raw_data"` returns the corpus entry, and ingesting an observation
whose normalized value is `"raw_data"` raises (`KeyError: 'importance'`). -/
theorem C2_counterexample :
    ((get_entity_details (add_raw_data initEngine [("s1", "blob")]).1 "raw_data").bind
        Entry.data = some [("s1", "blob")]) ∧
    (add_parsed_entities (add_raw_data initEngine [("s1", "blob")]).1
        [("s2", [⟨some (some "HOST"), some "raw_data", none⟩])]).2 = true := by
  constructor
  · decide
  · decide

/-- **C2 amended** — the identity-key space and the corpus storage share
the single reserved key `"raw_data"` of the one `correlation_map`: the
corpus entry never appears among `correlate()`'s entities (the key is
filtered out), but `get_entity_details` on the identity key `"raw_data"`
returns the corpus entry when present, and ingesting an observation
normalizing to `"raw_data"` into an engine holding the corpus entry raises
(`KeyError` on the missing `'importance'` key) after mutating that entry's
source set. -/
theorem C2_amended :
    (∀ m : List (String × Entry), "raw_data" ∉ entitiesOf m) ∧
    (∀ (st : EngineState) (e : Entry) (d : List (String × String)),
      alookup st.correlation_map "raw_data" = some e → e.data = some d →
      get_entity_details st "raw_data" = some e) ∧
    (∀ (st : EngineState) (src : String) (o : Obs) (v : String) (t : Option String)
        (e : Entry),
      o.value? = some v → o.type? = some t → normalizeKey v = "raw_data" →
      alookup st.correlation_map "raw_data" = some e → e.importance = none →
      (ingestObs st src o).2 = true) := by
  refine ⟨?_, ?_, ?_⟩
  · intro m h
    exact (mem_entitiesOf.mp h).2 rfl
  · intro st e d he _
    unfold get_entity_details
    rw [show normalizeKey "raw_data" = "raw_data" from by decide]
    exact he
  · intro st src o v t e hv ht hkey he himp
    have hpre : (preEntry st.correlation_map (normalizeKey v) t src).importance = none := by
      rw [preEntry_importance, alookup_getOrCreate_same, Option.getD_some, hkey, he,
        Option.getD_some]
      exact himp
    rw [ingestObs_eq_err st src o hv ht hpre]

/-- **C2 amended** witness at concrete inputs. -/
theorem C2_amended_witness :
    ("raw_data" ∉ entitiesOf [("raw_data", corpusInit)]) ∧
    get_entity_details ⟨[("raw_data", corpusInit)], []⟩ "raw_data" = some corpusInit ∧
    (ingestObs ⟨[("raw_data", corpusInit)], []⟩ "s2"
        ⟨some (some "HOST"), some "raw_data", none⟩).2 = true :=
  ⟨C2_amended.1 [("raw_data", corpusInit)],
   C2_amended.2.1 ⟨[("raw_data", corpusInit)], []⟩ corpusInit [] (by decide) rfl,
   C2_amended.2.2 ⟨[("raw_data", corpusInit)], []⟩ "s2"
     ⟨some (some "HOST"), some "raw_data", none⟩ "raw_data" (some "HOST") corpusInit
     rfl rfl (by decide) (by decide) rfl⟩

/-! ## Claim C5 — the final-score formula and bounds -/

/-- **C5** — after `correlate()`, every non-corpus entry's `final_score` is
`min(1, baseImportance + min(0.1·|sources|, 0.3) + min(0.05·|linkedKeys|, 0.2))`,
and that score lies in `[0, 1]`. -/
theorem C5_scores (st : EngineState) (h : Reachable st) :
    ∀ k e, ¬ k = "raw_data" →
      alookup (correlate st).1.correlation_map k = some e →
      e.final_score = some (min (e.importance.getD 0
          + min ((e.sources.length : ℚ) * (1/10)) (3/10)
          + min (((e.linked_entities.getD []).length : ℚ) * (1/20)) (1/5)) 1) ∧
      0 ≤ e.final_score.getD 0 ∧ e.final_score.getD 0 ≤ 1 := by
  intro k e hk he
  have hWF1 : WFmap (find_entity_links st).correlation_map :=
    WFmap_find_entity_links (WFmap_reachable h)
  rw [correlate_state] at he
  have he' : alookup (calculate_entity_scores (find_entity_links st).correlation_map) k =
      some e := he
  rw [alookup_calc] at he'
  rcases hm : alookup (find_entity_links st).correlation_map k with _ | e₀
  · rw [hm] at he'
    cases he'
  · rw [hm] at he'
    simp only [Option.map_some', if_neg hk, Option.some.injEq] at he'
    subst he'
    obtain ⟨q, hq, hq0⟩ := hWF1.imp_entity k e₀ hm hk
    refine ⟨rfl, ?_, ?_⟩
    · have hfd : (scoreEntry e₀).final_score.getD 0 =
          min (e₀.importance.getD 0
            + min ((e₀.sources.length : ℚ) * (1/10)) (3/10)
            + min (((e₀.linked_entities.getD []).length : ℚ) * (1/20)) (1/5)) 1 := rfl
      rw [hfd]
      have h0sb : (0:ℚ) ≤ min ((e₀.sources.length : ℚ) * (1/10)) (3/10) :=
        le_min (mul_nonneg (Nat.cast_nonneg _) (by norm_num)) (by norm_num)
      have h0lb : (0:ℚ) ≤ min (((e₀.linked_entities.getD []).length : ℚ) * (1/20)) (1/5) :=
        le_min (mul_nonneg (Nat.cast_nonneg _) (by norm_num)) (by norm_num)
      have h0b : (0:ℚ) ≤ e₀.importance.getD 0 := by
        rw [hq]
        exact hq0
      exact le_min (add_nonneg (add_nonneg h0b h0sb) h0lb) (by norm_num)
    · have hfd : (scoreEntry e₀).final_score.getD 0 =
          min (e₀.importance.getD 0
            + min ((e₀.sources.length : ℚ) * (1/10)) (3/10)
            + min (((e₀.linked_entities.getD []).length : ℚ) * (1/20)) (1/5)) 1 := rfl
      rw [hfd]
      exact min_le_right _ _

/-- **C5** witness: a single-entity session, the theorem applied at the
concrete post-`correlate` entry. -/
theorem C5_scores_witness :
    ((alookup (correlate (add_parsed_entities initEngine
        [("s", [⟨some (some "HOST"), some "x", none⟩])]).1).1.correlation_map "x").getD
          defaultEntry).final_score =
      some (min (((alookup (correlate (add_parsed_entities initEngine
          [("s", [⟨some (some "HOST"), some "x", none⟩])]).1).1.correlation_map "x").getD
            defaultEntry).importance.getD 0
        + min ((((alookup (correlate (add_parsed_entities initEngine
            [("s", [⟨some (some "HOST"), some "x", none⟩])]).1).1.correlation_map "x").getD
              defaultEntry).sources.length : ℚ) * (1/10)) (3/10)
        + min (((((alookup (correlate (add_parsed_entities initEngine
            [("s", [⟨some (some "HOST"), some "x", none⟩])]).1).1.correlation_map "x").getD
              defaultEntry).linked_entities.getD []).length : ℚ) * (1/20)) (1/5)) 1) ∧
    0 ≤ (((alookup (correlate (add_parsed_entities initEngine
        [("s", [⟨some (some "HOST"), some "x", none⟩])]).1).1.correlation_map "x").getD
          defaultEntry).final_score.getD 0) ∧
    (((alookup (correlate (add_parsed_entities initEngine
        [("s", [⟨some (some "HOST"), some "x", none⟩])]).1).1.correlation_map "x").getD
          defaultEntry).final_score.getD 0) ≤ 1 :=
  C5_scores (add_parsed_entities initEngine
      [("s", [⟨some (some "HOST"), some "x", none⟩])]).1
    (Reachable.parsed [("s", [⟨some (some "HOST"), some "x", none⟩])] Reachable.init)
    "x" _ (by decide) rfl

/-! ## Claim C7 — link symmetry and the co-occurrence criterion -/

/-- **C7 counterexample** — an entity whose normalized value is the
reserved key `"raw_data"` is excluded from link discovery: it shares the
source `"s"` with `"x"`, yet after `correlate()` neither is linked to the
other, refuting "a link exists exactly when the two distinct keys share at
least one common source". -/
theorem C7_counterexample :
    ("s" ∈ sourcesOf (add_parsed_entities initEngine
        [("s", [⟨some (some "HOST"), some "raw_data", none⟩,
                ⟨some (some "HOST"), some "x", none⟩])]).1.correlation_map "raw_data" ∧
     "s" ∈ sourcesOf (add_parsed_entities initEngine
        [("s", [⟨some (some "HOST"), some "raw_data", none⟩,
                ⟨some (some "HOST"), some "x", none⟩])]).1.correlation_map "x") ∧
    ¬ ("raw_data" : String) = "x" ∧
    linkedOf (correlate (add_parsed_entities initEngine
        [("s", [⟨some (some "HOST"), some "raw_data", none⟩,
                ⟨some (some "HOST"), some "x", none⟩])]).1).1.correlation_map
      "raw_data" = [] ∧
    linkedOf (correlate (add_parsed_entities initEngine
        [("s", [⟨some (some "HOST"), some "raw_data", none⟩,
                ⟨some (some "HOST"), some "x", none⟩])]).1).1.correlation_map "x" = [] := by
  refine ⟨⟨?_, ?_⟩, ?_, ?_, ?_⟩
  · decide
  · decide
  · decide
  · decide
  · decide

/-- **C7 amended** — after `correlate()` on any reachable state: links are
symmetric; two keys are linked exactly when they are **distinct existing
keys other than the reserved `"raw_data"` slot** sharing at least one
source; and every relationship emitted by the pass records
`strength = |commonSources|` with a non-empty common-source list. -/
theorem C7_amended (st : EngineState) (h : Reachable st) :
    (∀ a b, b ∈ linkedOf (correlate st).1.correlation_map a ↔
        a ∈ linkedOf (correlate st).1.correlation_map b) ∧
    (∀ a b, b ∈ linkedOf (correlate st).1.correlation_map a ↔
        (¬ a = b ∧ ¬ a = "raw_data" ∧ ¬ b = "raw_data" ∧
         (alookup st.correlation_map a).isSome ∧ (alookup st.correlation_map b).isSome ∧
         ¬ commonSources st.correlation_map a b = [])) ∧
    (∀ r ∈ relsPass st.correlation_map,
        r.strength = r.sources.length ∧
        r.sources = commonSources st.correlation_map r.entity1 r.entity2 ∧
        ¬ r.sources = []) ∧
    (correlate st).2.relationships = st.relationships ++ relsPass st.correlation_map := by
  have hWF := WFmap_reachable h
  have hlc : ∀ x, linkedOf (correlate st).1.correlation_map x =
      linkedOf (find_entity_links st).correlation_map x := by
    intro x
    rw [correlate_state]
    exact linkedOf_calc _ x
  have hiff : ∀ a b, b ∈ linkedOf (correlate st).1.correlation_map a ↔
      (¬ a = b ∧ ¬ a = "raw_data" ∧ ¬ b = "raw_data" ∧
       (alookup st.correlation_map a).isSome ∧ (alookup st.correlation_map b).isSome ∧
       ¬ commonSources st.correlation_map a b = []) := by
    intro a b
    rw [hlc a]
    exact find_entity_links_linked_iff hWF a b
  refine ⟨?_, hiff, ?_, ?_⟩
  · intro a b
    rw [hiff a b, hiff b a]
    constructor
    · rintro ⟨h1, h2, h3, h4, h5, h6⟩
      exact ⟨fun hh => h1 hh.symm, h3, h2, h5, h4, commonSources_swap_iff.mp h6⟩
    · rintro ⟨h1, h2, h3, h4, h5, h6⟩
      exact ⟨fun hh => h1 hh.symm, h3, h2, h5, h4, commonSources_swap_iff.mp h6⟩
  · intro r hr
    unfold relsPass at hr
    obtain ⟨p, hp, hrel⟩ := List.mem_filterMap.mp hr
    unfold relOf at hrel
    by_cases hc : commonSources st.correlation_map p.1 p.2 = []
    · rw [if_pos hc] at hrel
      cases hrel
    · rw [if_neg hc] at hrel
      cases hrel
      exact ⟨rfl, rfl, hc⟩
  · show (compileResult _ (find_entity_links st).relationships).relationships = _
    rw [compileResult_rels]
    exact find_entity_links_rels st

/-- **C7 amended** witness: a two-entity single-source session; the iff and
the relationship list instantiated concretely. -/
theorem C7_amended_witness :
    ("10.0.0.1" ∈ linkedOf (correlate (add_parsed_entities initEngine
        [("s", [⟨some (some "EMAIL"), some "a@b", none⟩,
                ⟨some (some "IP_ADDRESS"), some "10.0.0.1", none⟩])]).1).1.correlation_map
        "a@b" ↔
      (¬ ("a@b" : String) = "10.0.0.1" ∧ ¬ ("a@b" : String) = "raw_data" ∧
       ¬ ("10.0.0.1" : String) = "raw_data" ∧
       (alookup (add_parsed_entities initEngine
          [("s", [⟨some (some "EMAIL"), some "a@b", none⟩,
                  ⟨some (some "IP_ADDRESS"), some "10.0.0.1", none⟩])]).1.correlation_map
          "a@b").isSome ∧
       (alookup (add_parsed_entities initEngine
          [("s", [⟨some (some "EMAIL"), some "a@b", none⟩,
                  ⟨some (some "IP_ADDRESS"), some "10.0.0.1", none⟩])]).1.correlation_map
          "10.0.0.1").isSome ∧
       ¬ commonSources (add_parsed_entities initEngine
          [("s", [⟨some (some "EMAIL"), some "a@b", none⟩,
                  ⟨some (some "IP_ADDRESS"), some "10.0.0.1", none⟩])]).1.correlation_map
          "a@b" "10.0.0.1" = [])) ∧
    (correlate (add_parsed_entities initEngine
        [("s", [⟨some (some "EMAIL"), some "a@b", none⟩,
                ⟨some (some "IP_ADDRESS"), some "10.0.0.1", none⟩])]).1).2.relationships =
      (add_parsed_entities initEngine
        [("s", [⟨some (some "EMAIL"), some "a@b", none⟩,
                ⟨some (some "IP_ADDRESS"), some "10.0.0.1", none⟩])]).1.relationships ++
        relsPass (add_parsed_entities initEngine
          [("s", [⟨some (some "EMAIL"), some "a@b", none⟩,
                  ⟨some (some "IP_ADDRESS"), some "10.0.0.1", none⟩])]).1.correlation_map :=
  ⟨(C7_amended (add_parsed_entities initEngine
      [("s", [⟨some (some "EMAIL"), some "a@b", none⟩,
              ⟨some (some "IP_ADDRESS"), some "10.0.0.1", none⟩])]).1
      (Reachable.parsed _ Reachable.init)).2.1 "a@b" "10.0.0.1",
   (C7_amended (add_parsed_entities initEngine
      [("s", [⟨some (some "EMAIL"), some "a@b", none⟩,
              ⟨some (some "IP_ADDRESS"), some "10.0.0.1", none⟩])]).1
      (Reachable.parsed _ Reachable.init)).2.2.2⟩

/-! ## Claim C1 — repeated `correlate()` -/

theorem entry_set_linked_self {e : Entry} {l : List String}
    (h : e.linked_entities = some l) : { e with linked_entities := some l } = e := by
  cases e
  cases h
  rfl

/-- Adding an already-present link leaves the map unchanged. -/
theorem addLinked_id {m : List (String × Entry)} {a b : String}
    (hb : b ∈ linkedOf m a) : addLinked m a b = m := by
  obtain ⟨e, he⟩ := Option.isSome_iff_exists.mp (linkedOf_mem_isSome hb)
  unfold addLinked
  rw [he]
  have hmem : b ∈ e.linked_entities.getD [] := by
    unfold linkedOf at hb
    rw [he] at hb
    exact hb
  show aupdate m a { e with linked_entities := some (saddSet (e.linked_entities.getD []) b) } = m
  rcases hl : e.linked_entities with _ | l
  · rw [hl] at hmem
    cases hmem
  · have hmem' : b ∈ l := by
      rw [hl] at hmem
      exact hmem
    simp only [Option.getD_some]
    rw [saddSet_eq_self_of_mem hmem', entry_set_linked_self hl]
    exact aupdate_self he

theorem linkStep_map_id {st : EngineState} {p : String × String}
    (h : (p.2 ∈ linkedOf st.correlation_map p.1 ∧ p.1 ∈ linkedOf st.correlation_map p.2) ∨
      commonSources st.correlation_map p.1 p.2 = []) :
    (linkStep st p).correlation_map = st.correlation_map := by
  unfold linkStep
  by_cases hc : commonSources st.correlation_map p.1 p.2 = []
  · rw [if_pos hc]
  · rw [if_neg hc]
    rcases h with ⟨h1, h2⟩ | h
    · show addLinked (addLinked st.correlation_map p.1 p.2) p.2 p.1 = _
      rw [addLinked_id h1, addLinked_id h2]
    · exact absurd h hc

theorem foldl_linkStep_map_id (ps : List (String × String)) (st : EngineState)
    (h : ∀ p ∈ ps,
      (p.2 ∈ linkedOf st.correlation_map p.1 ∧ p.1 ∈ linkedOf st.correlation_map p.2) ∨
        commonSources st.correlation_map p.1 p.2 = []) :
    (ps.foldl linkStep st).correlation_map = st.correlation_map := by
  induction ps generalizing st with
  | nil => rfl
  | cons p t ih =>
    have hid : (linkStep st p).correlation_map = st.correlation_map :=
      linkStep_map_id (h p (List.mem_cons_self p t))
    rw [List.foldl_cons]
    rw [ih (linkStep st p) (fun q hq => by
      unfold linkedOf commonSources sourcesOf
      rw [hid]
      exact h q (List.mem_cons_of_mem p hq))]
    exact hid

theorem sourcesOf_correlate (st : EngineState) (a : String) :
    sourcesOf (correlate st).1.correlation_map a = sourcesOf st.correlation_map a := by
  rw [correlate_state]
  show sourcesOf (calculate_entity_scores (find_entity_links st).correlation_map) a = _
  rw [sourcesOf_calc]
  exact foldl_linkStep_sources _ st a

theorem relsPass_congr {m m' : List (String × Entry)}
    (hkeys : m'.map Prod.fst = m.map Prod.fst)
    (hsrc : ∀ a, sourcesOf m' a = sourcesOf m a) : relsPass m' = relsPass m := by
  unfold relsPass
  rw [entitiesOf_keys_congr hkeys]
  rw [show relOf m' = relOf m from funext (fun p => by
    unfold relOf
    rw [commonSources_congr hsrc])]

theorem scoreEntry_idem (e : Entry) : scoreEntry (scoreEntry e) = scoreEntry e := rfl

theorem calc_idem (m : List (String × Entry)) :
    calculate_entity_scores (calculate_entity_scores m) = calculate_entity_scores m := by
  induction m with
  | nil => rfl
  | cons p t ih =>
    obtain ⟨k₀, e₀⟩ := p
    by_cases hr : k₀ = "raw_data"
    · rw [calc_cons_rd k₀ e₀ t hr, calc_cons_rd k₀ e₀ _ hr, ih]
    · rw [calc_cons_entity k₀ e₀ t hr, calc_cons_entity k₀ _ _ hr, scoreEntry_idem, ih]

/-- The second link-discovery pass changes nothing in the map: every pair
with a common source is already mutually linked. -/
theorem find_correlate_map_id {st : EngineState} (h : Reachable st) :
    (find_entity_links (correlate st).1).correlation_map =
      (correlate st).1.correlation_map := by
  have hWF := WFmap_reachable h
  apply foldl_linkStep_map_id
  intro p hp
  by_cases hc : commonSources (correlate st).1.correlation_map p.1 p.2 = []
  · exact Or.inr hc
  · left
    have hsrc : ∀ a, sourcesOf (correlate st).1.correlation_map a =
        sourcesOf st.correlation_map a := sourcesOf_correlate st
    have hcs : ¬ commonSources st.correlation_map p.1 p.2 = [] := by
      rw [← commonSources_congr hsrc p.1 p.2]
      exact hc
    have hlc : ∀ x, linkedOf (correlate st).1.correlation_map x =
        linkedOf (find_entity_links st).correlation_map x := by
      intro x
      rw [correlate_state]
      exact linkedOf_calc _ x
    have hkeys : (correlate st).1.correlation_map.map Prod.fst =
        st.correlation_map.map Prod.fst := keys_correlate st
    have hents : entitiesOf (correlate st).1.correlation_map =
        entitiesOf st.correlation_map := entitiesOf_keys_congr hkeys
    rw [hents] at hp
    obtain ⟨hm1, hm2⟩ := mem_pairsOf hp
    obtain ⟨hk1, hr1⟩ := mem_entitiesOf.mp hm1
    obtain ⟨hk2, hr2⟩ := mem_entitiesOf.mp hm2
    have hne := pairsOf_ne (entitiesOf_nodup hWF.nodup) hp
    constructor
    · rw [hlc p.1]
      rw [find_entity_links_linked_iff hWF]
      exact ⟨hne, hr1, hr2, alookup_isSome_iff_mem.mpr hk1,
        alookup_isSome_iff_mem.mpr hk2, hcs⟩
    · rw [hlc p.2]
      rw [find_entity_links_linked_iff hWF]
      exact ⟨fun hh => hne hh.symm, hr2, hr1, alookup_isSome_iff_mem.mpr hk2,
        alookup_isSome_iff_mem.mpr hk1, commonSources_swap_iff.mp hcs⟩

/-- A concrete two-entity single-source ingestion batch. -/
def c1Groups : List (String × List Obs) :=
  [("s", [⟨some (some "EMAIL"), some "a@b", none⟩,
          ⟨some (some "IP_ADDRESS"), some "10.0.0.1", none⟩])]

/-- **C1 counterexample** — two `correlate()` calls with no intervening
ingestion do **not** return identical results: `_find_entity_links` appends
the co-occurrence relationships again, so the second result's
`relationships` list holds each relationship twice. -/
theorem C1_counterexample :
    ¬ ((correlate (correlate (add_parsed_entities initEngine c1Groups).1).1).2 =
        (correlate (add_parsed_entities initEngine c1Groups).1).2) := by
  intro hc
  exact absurd (congrArg CorrelationResult.relationships hc) (by decide)

/-- **C1 amended** — a second `correlate()` with no intervening ingestion
reproduces every count and key list of the first call exactly; only the
`relationships` list differs, by exactly one more copy of the pass's
relationship batch appended at the end. -/
theorem C1_amended (st : EngineState) (h : Reachable st) :
    (correlate (correlate st).1).2.total_entities = (correlate st).2.total_entities ∧
    (correlate (correlate st).1).2.linked_count = (correlate st).2.linked_count ∧
    (correlate (correlate st).1).2.high_value_count = (correlate st).2.high_value_count ∧
    (correlate (correlate st).1).2.ctf_flags = (correlate st).2.ctf_flags ∧
    (correlate (correlate st).1).2.api_keys = (correlate st).2.api_keys ∧
    (correlate (correlate st).1).2.credentials = (correlate st).2.credentials ∧
    (correlate (correlate st).1).2.high_value_entities =
      (correlate st).2.high_value_entities ∧
    (correlate (correlate st).1).2.relationships =
      (correlate st).2.relationships ++ relsPass st.correlation_map := by
  have hfind : (find_entity_links (correlate st).1).correlation_map =
      (correlate st).1.correlation_map := find_correlate_map_id h
  have hm2 : calculate_entity_scores (find_entity_links (correlate st).1).correlation_map =
      (correlate st).1.correlation_map := by
    rw [hfind]
    show calculate_entity_scores (calculate_entity_scores
        (find_entity_links st).correlation_map) = _
    exact calc_idem _
  have hr2 : (correlate (correlate st).1).2 =
      compileResult (correlate st).1.correlation_map
        (find_entity_links (correlate st).1).relationships := by
    show compileResult (calculate_entity_scores
        (find_entity_links (correlate st).1).correlation_map)
        (find_entity_links (correlate st).1).relationships = _
    rw [hm2]
  have hr1 : (correlate st).2 =
      compileResult (correlate st).1.correlation_map (correlate st).1.relationships := rfl
  have hrels2 : (find_entity_links (correlate st).1).relationships =
      (correlate st).1.relationships ++ relsPass st.correlation_map := by
    rw [find_entity_links_rels (correlate st).1]
    rw [relsPass_congr (keys_correlate st) (sourcesOf_correlate st)]
  rw [hr2, hr1, hrels2]
  exact ⟨rfl, rfl, rfl, rfl, rfl, rfl, rfl, rfl⟩

/-- **C1 amended** witness: the concrete two-entity session. -/
theorem C1_amended_witness :
    (correlate (correlate (add_parsed_entities initEngine c1Groups).1).1).2.total_entities =
      (correlate (add_parsed_entities initEngine c1Groups).1).2.total_entities ∧
    (correlate (correlate (add_parsed_entities initEngine c1Groups).1).1).2.linked_count =
      (correlate (add_parsed_entities initEngine c1Groups).1).2.linked_count ∧
    (correlate (correlate (add_parsed_entities initEngine
        c1Groups).1).1).2.high_value_count =
      (correlate (add_parsed_entities initEngine c1Groups).1).2.high_value_count ∧
    (correlate (correlate (add_parsed_entities initEngine c1Groups).1).1).2.ctf_flags =
      (correlate (add_parsed_entities initEngine c1Groups).1).2.ctf_flags ∧
    (correlate (correlate (add_parsed_entities initEngine c1Groups).1).1).2.api_keys =
      (correlate (add_parsed_entities initEngine c1Groups).1).2.api_keys ∧
    (correlate (correlate (add_parsed_entities initEngine c1Groups).1).1).2.credentials =
      (correlate (add_parsed_entities initEngine c1Groups).1).2.credentials ∧
    (correlate (correlate (add_parsed_entities initEngine
        c1Groups).1).1).2.high_value_entities =
      (correlate (add_parsed_entities initEngine c1Groups).1).2.high_value_entities ∧
    (correlate (correlate (add_parsed_entities initEngine c1Groups).1).1).2.relationships =
      (correlate (add_parsed_entities initEngine c1Groups).1).2.relationships ++
        relsPass (add_parsed_entities initEngine c1Groups).1.correlation_map :=
  C1_amended (add_parsed_entities initEngine c1Groups).1
    (Reachable.parsed c1Groups Reachable.init)

end CTFSentinel
